import Mathlib

/-!
Verification of the Minesweeper implementation (`minesweeper.py`).

The Python program is single-threaded and event driven; all game-state
mutation happens synchronously inside the click handlers.  We embed the
mutable game state as a record `GameState` and each state-mutating method
as a function `GameState → ... → GameState`.

Modelling conventions:
* A `Cell` keeps the four gameplay fields of the Python `Cell` object
  (`bomb`, `revealed`, `flagged`, `neighbor_bombs`).  The Python cell also
  stores its own `row`/`col`; here the position is the index into the
  field, and the functions receive `row`/`col` as arguments.
* GUI widgets are modelled by the data the game logic writes into them:
  the per-button foreground colors (`btn_colors`), the mine-counter label
  (`mines_label`), and the list of end-game popups that were opened
  (`popups`, `true` = win popup, `false` = loss popup).
* Theme colors are the default "dark" theme values from the built-in
  configuration.
* `random.sample(danger_cords, bombs)` is modelled by passing the sampled
  list as an explicit argument; its characteristic properties (no
  duplicates, drawn from the population, of the requested length) become
  hypotheses.
* `list(set(a) - set(b))` is modelled as `a.filter (· ∉ b)`: Python's
  iteration order of a set is unspecified, and only membership and
  distinctness of these lists are ever used.
* `list.remove` is modelled by `List.erase`; the two agree whenever the
  element is present, which the invariant `InvCords` guarantees at every
  call site.
* The recursive `Cell.reveal` is embedded as a fuel-indexed function
  `revealF`; `reveal` runs it with provably sufficient fuel
  (`uc s + 2`, where `uc` counts unrevealed cells), and the
  fuel-irrelevance theorem for claim C8 shows the result is independent
  of any sufficient fuel.
-/

/-- The gameplay fields of the Python `Cell` object. -/
structure Cell where
  bomb : Bool
  revealed : Bool
  flagged : Bool
  neighbor_bombs : Nat
deriving Repr, DecidableEq

/-- A fresh cell, as produced by `Cell.__init__`'s defaults. -/
def newCell : Cell := { bomb := false, revealed := false, flagged := false, neighbor_bombs := 0 }

instance : Inhabited Cell := ⟨newCell⟩

/-- Default dark-theme color for an untouched button (`button_color`). -/
def button_color : String := "#2C2C2C"

/-- Default dark-theme color for a revealed button (`pressed_color`). -/
def pressed_color : String := "#424242"

/-- Default dark-theme color for a flagged button (`flag_color`). -/
def flag_color : String := "#FF7043"

/-- Default dark-theme color for a detonated mine (`mines_color`). -/
def mines_color : String := "#EF5350"

/-- The game state: the fields of the Python `GameState` object that the
game logic reads or writes, together with the GUI data it mutates and the
configuration values it consults (`config.width/height/bombs/current_diff/
best_time`, the timer, and the best-time record). -/
structure GameState where
  width : Nat
  height : Nat
  field : List (List Cell)
  all_cords : List Nat
  def_zone : List Nat
  danger_cords : List Nat
  mines : Int
  mines_label : String
  btn_colors : List (List String)
  popups : List Bool
  running : Bool
  time_elapsed : Nat
  current_diff : String
  best_time : Nat
  first_click : Bool
deriving Repr, DecidableEq

/-- Reading `self.field[row][col]`; out-of-range reads return a default
cell (the Python program never reads out of range). -/
def getCell (s : GameState) (row col : Nat) : Cell :=
  ((s.field[row]?.getD [])[col]?).getD newCell

/-- Writing one cell of `self.field`; out-of-range writes are no-ops
(the Python program never writes out of range). -/
def updateCell (s : GameState) (row col : Nat) (f : Cell → Cell) : GameState :=
  { s with field := s.field.set row ((s.field[row]?.getD []).set col (f (getCell s row col))) }

/-- Setting the `fg_color` of one button. -/
def setColor (s : GameState) (row col : Nat) (color : String) : GameState :=
  { s with btn_colors := s.btn_colors.set row ((s.btn_colors[row]?.getD []).set col color) }

/-- The 9 offset pairs produced by two nested `for d in [-1, 0, 1]` loops,
in iteration order (outer component first). -/
def offsets9 : List (Int × Int) :=
  [(-1, -1), (-1, 0), (-1, 1), (0, -1), (0, 0), (0, 1), (1, -1), (1, 0), (1, 1)]

/-- The 8 offset pairs of the proper neighbors, in the same iteration
order (the `(0, 0)` entry removed). -/
def offsets8 : List (Int × Int) :=
  [(-1, -1), (-1, 0), (-1, 1), (0, -1), (0, 1), (1, -1), (1, 0), (1, 1)]

/-- `GameState.safe_zone`: append to `def_zone` the linear coordinates of
the in-bounds cells of the 3×3 block around the first click.  The Python
loop runs `for dc: for dr:` and appends `(row+dr)*width + (col+dc)`. -/
def safe_zone (s : GameState) (row col : Nat) : GameState :=
  { s with def_zone := s.def_zone ++ offsets9.filterMap (fun p =>
      let new_r : Int := (row : Int) + p.2
      let new_c : Int := (col : Int) + p.1
      if 0 ≤ new_c ∧ new_c < (s.width : Int) ∧ 0 ≤ new_r ∧ new_r < (s.height : Int) then
        some (new_r.toNat * s.width + new_c.toNat)
      else none) }

/-- `GameState.place_bombs`, with the outcome of
`random.sample(danger_cords, bombs)` passed in as `bomb_coords`. -/
def place_bombs (s : GameState) (bomb_coords : List Nat) : GameState :=
  let all := List.range (s.height * s.width)
  let s := { s with danger_cords := all.filter (fun i => !s.def_zone.contains i) }
  let s := { s with all_cords := all.filter (fun i => !bomb_coords.contains i) }
  bomb_coords.foldl (fun t i =>
    updateCell t (i / t.width) (i % t.width) (fun c => { c with bomb := true })) s

/-- The neighbor-scanning count of `GameState.calculate_neighbor_bombs`:
the Python loop runs `for dr: for dc:` over the 3×3 block (including the
cell itself) and counts the in-bounds cells holding a mine. -/
def calcCount (s : GameState) (row col : Nat) : Nat :=
  (offsets9.filter (fun p =>
    let nr : Int := (row : Int) + p.1
    let nc : Int := (col : Int) + p.2
    decide (0 ≤ nr ∧ nr < (s.height : Int) ∧ 0 ≤ nc ∧ nc < (s.width : Int)) &&
      (getCell s nr.toNat nc.toNat).bomb)).length

/-- `GameState.calculate_neighbor_bombs`: store the neighbor-mine count of
every non-mine cell.  The loop only reads the (immutable during the loop)
`bomb` flags, so rebuilding the field from the pre-state is faithful. -/
def calculate_neighbor_bombs (s : GameState) : GameState :=
  { s with field := (List.range s.height).map (fun row => (List.range s.width).map (fun col =>
      let c := getCell s row col
      if !c.bomb then { c with neighbor_bombs := calcCount s row col } else c)) }

/-- `GameState.check_best`: persist a new best time after a win (writing
`config.json` is modelled by updating the stored record). -/
def check_best (s : GameState) : GameState :=
  if s.current_diff ≠ "custom" ∧ s.time_elapsed < s.best_time then
    { s with best_time := s.time_elapsed }
  else s

/-- The win outcome in `Cell.reveal`: open the win `EndGamePopup`, run
`check_best`, and stop the timer. -/
def winUpdate (s : GameState) : GameState :=
  let s := { s with popups := s.popups ++ [true] }
  let s := check_best s
  { s with running := false }

/-- The loss outcome in `Cell.reveal`: open the loss `EndGamePopup`, stop
the timer, and recolor the detonated mine. -/
def lossUpdate (s : GameState) (row col : Nat) : GameState :=
  let s := { s with popups := s.popups ++ [false], running := false }
  setColor s row col mines_color

/-- The first (non-recursive) part of `Cell.reveal`'s safe branch: mark
the cell revealed, `all_cords.remove` its linear coordinate, recolor the
button, and trigger the win outcome if no safe cell is outstanding. -/
def markRevealed (s : GameState) (row col : Nat) : GameState :=
  let s := updateCell s row col (fun c => { c with revealed := true })
  let s := { s with all_cords := s.all_cords.erase (row * s.width + col) }
  let s := setColor s row col pressed_color
  if s.all_cords = [] then winUpdate s else s

/-- The flagged-neighbor count of `Cell.try_chord`: the Python loop runs
`for dr: for dc:` over the 3×3 block (including the cell itself). -/
def flaggedCount (s : GameState) (row col : Nat) : Nat :=
  (offsets9.filter (fun p =>
    let nr : Int := (row : Int) + p.1
    let nc : Int := (col : Int) + p.2
    decide (0 ≤ nr ∧ nr < (s.height : Int) ∧ 0 ≤ nc ∧ nc < (s.width : Int)) &&
      (getCell s nr.toNat nc.toNat).flagged)).length

/-- `Cell.reveal`, fuel-indexed.  The `fuel = 0` case is never reached
when run with sufficient fuel (theorem for claim C8).  The re-activation
branch (`elif self.revealed: self.try_chord()`) is inlined; `try_chord`
below is the same code as a standalone definition. -/
def revealF : Nat → GameState → Nat → Nat → GameState
  | 0, s, _, _ => s
  | fuel + 1, s, row, col =>
    let cell := getCell s row col
    if !cell.bomb && !cell.revealed then
      if !cell.flagged then
        let s1 := markRevealed s row col
        if cell.neighbor_bombs = 0 then
          -- `for dc: for dr:` over the neighbors of (row, col)
          offsets9.foldl (fun t p =>
            let new_r : Int := (row : Int) + p.2
            let new_c : Int := (col : Int) + p.1
            if decide (0 ≤ new_c ∧ new_c < (t.width : Int) ∧ 0 ≤ new_r ∧ new_r < (t.height : Int)) &&
                !(getCell t new_r.toNat new_c.toNat).revealed then
              revealF fuel t new_r.toNat new_c.toNat
            else t) s1
        else s1
      else s
    else if cell.revealed then
      -- self.try_chord()
      if !(getCell s row col).revealed then s
      else if flaggedCount s row col = (getCell s row col).neighbor_bombs then
        -- `for dr: for dc:` over the neighbors of (row, col)
        offsets9.foldl (fun t p =>
          let nr : Int := (row : Int) + p.1
          let nc : Int := (col : Int) + p.2
          if decide (0 ≤ nr ∧ nr < (t.height : Int) ∧ 0 ≤ nc ∧ nc < (t.width : Int)) &&
              !(getCell t nr.toNat nc.toNat).revealed &&
              !(getCell t nr.toNat nc.toNat).flagged then
            revealF fuel t nr.toNat nc.toNat
          else t) s
      else s
    else if cell.bomb && !cell.flagged then
      lossUpdate s row col
    else s

/-- `Cell.try_chord` as a standalone definition (identical to the code
inlined in `revealF`'s re-activation branch). -/
def try_chordF (fuel : Nat) (s : GameState) (row col : Nat) : GameState :=
  if !(getCell s row col).revealed then s
  else if flaggedCount s row col = (getCell s row col).neighbor_bombs then
    offsets9.foldl (fun t p =>
      let nr : Int := (row : Int) + p.1
      let nc : Int := (col : Int) + p.2
      if decide (0 ≤ nr ∧ nr < (t.height : Int) ∧ 0 ≤ nc ∧ nc < (t.width : Int)) &&
          !(getCell t nr.toNat nc.toNat).revealed &&
          !(getCell t nr.toNat nc.toNat).flagged then
        revealF fuel t nr.toNat nc.toNat
      else t) s
  else s

/-- The number of unrevealed cells of the field; the termination measure
of the flood fill. -/
def uc (s : GameState) : Nat :=
  (s.field.map (fun row => row.countP (fun c => !c.revealed))).sum

/-- `Cell.reveal`, run with provably sufficient fuel. -/
def reveal (s : GameState) (row col : Nat) : GameState :=
  revealF (uc s + 2) s row col

/-- `Cell.try_chord`, run with provably sufficient fuel (the amount the
chord inherits when `reveal` dispatches to it). -/
def try_chord (s : GameState) (row col : Nat) : GameState :=
  try_chordF (uc s + 1) s row col

/-- `FieldFrame.set_flag`: toggle the flag of a hidden cell, recolor the
button, and update the remaining-mines counter and its label. -/
def set_flag (s : GameState) (row col : Nat) : GameState :=
  if !(getCell s row col).revealed then
    let s := updateCell s row col (fun c => { c with flagged := !c.flagged })
    if (getCell s row col).flagged then
      let s := setColor s row col flag_color
      let s := { s with mines := s.mines - 1 }
      { s with mines_label :=
          if 0 ≤ s.mines then "Bombs: " ++ toString s.mines else "Are you dumb?" }
    else
      let s := setColor s row col button_color
      let s := { s with mines := s.mines + 1 }
      { s with mines_label :=
          if 0 ≤ s.mines then "Bombs: " ++ toString s.mines else "Are you dumb?" }
  else s

/-- `FieldFrame.on_click`, with the mine sample passed in: on the first
click build the safe zone, place the mines, compute the neighbor counts,
start the timer and auto-reveal the 3×3 block around the click
(`for dc: for dr:`); afterwards just reveal the clicked cell. -/
def on_click (s : GameState) (bomb_coords : List Nat) (row col : Nat) : GameState :=
  if s.first_click then
    let s := safe_zone s row col
    let s := { s with first_click := false }
    let s := place_bombs s bomb_coords
    let s := calculate_neighbor_bombs s
    let s := if !s.running then { s with running := true } else s
    offsets9.foldl (fun t p =>
      let new_r : Int := (row : Int) + p.2
      let new_c : Int := (col : Int) + p.1
      if decide (0 ≤ new_c ∧ new_c < (t.width : Int) ∧ 0 ≤ new_r ∧ new_r < (t.height : Int)) then
        reveal t new_r.toNat new_c.toNat
      else t) s
  else
    reveal s row col


/-- The step function of the flood-fill loop in `Cell.reveal` (outer loop
variable `dc` is `p.1`, inner `dr` is `p.2`). -/
def floodStep (fuel : Nat) (row col : Nat) (t : GameState) (p : Int × Int) : GameState :=
  let new_r : Int := (row : Int) + p.2
  let new_c : Int := (col : Int) + p.1
  if decide (0 ≤ new_c ∧ new_c < (t.width : Int) ∧ 0 ≤ new_r ∧ new_r < (t.height : Int)) &&
      !(getCell t new_r.toNat new_c.toNat).revealed then
    revealF fuel t new_r.toNat new_c.toNat
  else t

/-- The step function of the reveal loop in `Cell.try_chord` (outer loop
variable `dr` is `p.1`, inner `dc` is `p.2`). -/
def chordStep (fuel : Nat) (row col : Nat) (t : GameState) (p : Int × Int) : GameState :=
  let nr : Int := (row : Int) + p.1
  let nc : Int := (col : Int) + p.2
  if decide (0 ≤ nr ∧ nr < (t.height : Int) ∧ 0 ≤ nc ∧ nc < (t.width : Int)) &&
      !(getCell t nr.toNat nc.toNat).revealed &&
      !(getCell t nr.toNat nc.toNat).flagged then
    revealF fuel t nr.toNat nc.toNat
  else t

/-- The field of the game state is a `height × width` rectangle. -/
def WF (s : GameState) : Prop :=
  s.field.length = s.height ∧ ∀ r, r < s.height → (s.field[r]?.getD []).length = s.width

instance (s : GameState) : Decidable (WF s) := by unfold WF; infer_instance

/-- The cell fields that `Cell.reveal`, `try_chord` and `set_flag` treat
as read-only during a reveal cascade. -/
def cellStatic (c : Cell) : Bool × Bool × Nat := (c.bomb, c.flagged, c.neighbor_bombs)

/-- Two states that agree on everything the reveal cascade treats as
read-only: the grid dimensions, the shape of the field, the `bomb`,
`flagged` and `neighbor_bombs` fields of every cell, and the state
components `reveal` never writes. -/
structure StaticEq (t s : GameState) : Prop where
  w : t.width = s.width
  h : t.height = s.height
  shape : t.field.map List.length = s.field.map List.length
  cell : ∀ r c, cellStatic (getCell t r c) = cellStatic (getCell s r c)
  dz : t.def_zone = s.def_zone
  dgc : t.danger_cords = s.danger_cords
  mines : t.mines = s.mines
  label : t.mines_label = s.mines_label
  fcl : t.first_click = s.first_click
  diff : t.current_diff = s.current_diff
  te : t.time_elapsed = s.time_elapsed

/-- The branch condition of `markRevealed`, spelled on the pre-state. -/
def eraseEmpty (s : GameState) (row col : Nat) : Prop :=
  s.all_cords.erase (row * s.width + col) = []

instance (s : GameState) (row col : Nat) : Decidable (eraseEmpty s row col) := by
  unfold eraseEmpty; infer_instance


/-- The unconditional relation between the state after any fragment of a
reveal cascade and the state before it: static data is unchanged,
revealed cells stay revealed, the unrevealed count does not grow,
`all_cords` only loses elements, popups are only appended, a state with
no revealed-and-flagged cell stays that way, and every newly revealed
cell was an unflagged non-mine inside the field. -/
structure Tame (t s : GameState) : Prop where
  st : StaticEq t s
  mono : ∀ r c, (getCell s r c).revealed = true → (getCell t r c).revealed = true
  uc_le : uc t ≤ uc s
  cords : t.all_cords.Sublist s.all_cords
  pops : ∃ ext, t.popups = s.popups ++ ext
  norf : (∀ r c, (getCell s r c).revealed = true → (getCell s r c).flagged = false) →
         (∀ r c, (getCell t r c).revealed = true → (getCell t r c).flagged = false)
  fresh : ∀ r c, (getCell t r c).revealed = true → (getCell s r c).revealed = false →
          (getCell s r c).bomb = false ∧ (getCell s r c).flagged = false ∧
          r < s.field.length ∧ c < (s.field[r]?.getD []).length

/-- The number of mine cells among the in-bounds 8-neighbors of a cell
(the quantity the specification talks about). -/
def neighborMines (s : GameState) (row col : Nat) : Nat :=
  (offsets8.filter (fun p =>
    let nr : Int := (row : Int) + p.1
    let nc : Int := (col : Int) + p.2
    decide (0 ≤ nr ∧ nr < (s.height : Int) ∧ 0 ≤ nc ∧ nc < (s.width : Int)) &&
      (getCell s nr.toNat nc.toNat).bomb)).length

/-- The game state right after `reset_game` and `do_field`: a fresh
`height × width` grid of default cells, empty coordinate lists, and the
default-configuration display values. -/
def initialState (W H M : Nat) : GameState :=
  { width := W, height := H,
    field := List.replicate H (List.replicate W newCell),
    all_cords := [], def_zone := [], danger_cords := [],
    mines := (M : Int), mines_label := "Bombs: " ++ toString (M : Int),
    btn_colors := List.replicate H (List.replicate W button_color),
    popups := [], running := false, time_elapsed := 0,
    current_diff := "easy", best_time := 9999, first_click := true }

/-- The number of cells of the field holding a mine. -/
def bombCount (s : GameState) : Nat :=
  (((Finset.range s.height) ×ˢ (Finset.range s.width)).filter
    (fun rc => (getCell s rc.1 rc.2).bomb = true)).card

/-- The buttons of the field form a `height × width` rectangle. -/
def BWF (s : GameState) : Prop :=
  s.btn_colors.length = s.height ∧
  ∀ r, r < s.height → ((s.btn_colors[r]?.getD []).length = s.width)

instance (s : GameState) : Decidable (BWF s) := by unfold BWF; infer_instance

/-- The `fg_color` of the button at a position. -/
def btnColor (s : GameState) (row col : Nat) : String :=
  ((s.btn_colors[row]?.getD [])[col]?).getD ""

/-- `all_cords` invariant: it lists, without duplicates, exactly the
linear coordinates of the unrevealed non-mine cells. -/
def InvCords (s : GameState) : Prop :=
  s.all_cords.Nodup ∧ (∀ i ∈ s.all_cords, i < s.height * s.width) ∧
  ∀ i, i < s.height * s.width →
    (i ∈ s.all_cords ↔ ((getCell s (i / s.width) (i % s.width)).bomb = false ∧
                        (getCell s (i / s.width) (i % s.width)).revealed = false))

instance (s : GameState) : Decidable (InvCords s) := by unfold InvCords; infer_instance

/-- Neighbor counts are consistent: every non-mine cell stores the number
of mines among its in-bounds 8-neighbors (the state of affairs after
`calculate_neighbor_bombs`). -/
def Consistent (s : GameState) : Prop :=
  ∀ r, r < s.height → ∀ c, c < s.width → (getCell s r c).bomb = false →
    (getCell s r c).neighbor_bombs = neighborMines s r c

instance (s : GameState) : Decidable (Consistent s) := by unfold Consistent; infer_instance

/-- Every non-mine cell of the field is revealed (the win condition of
the specification). -/
def allSafeRevealed (s : GameState) : Prop :=
  ∀ r, r < s.height → ∀ c, c < s.width → (getCell s r c).bomb = false →
    (getCell s r c).revealed = true

instance (s : GameState) : Decidable (allSafeRevealed s) := by
  unfold allSafeRevealed; infer_instance

/-- No cell is simultaneously revealed and flagged (claim C10's
invariant). -/
def NoRF (s : GameState) : Prop :=
  ∀ r c, (getCell s r c).revealed = true → (getCell s r c).flagged = false

/-- An in-bounds, unflagged, zero-count non-mine cell: the interior of a
flood-fill region. -/
def ZeroCell (s : GameState) (p : Nat × Nat) : Prop :=
  p.1 < s.height ∧ p.2 < s.width ∧ (getCell s p.1 p.2).bomb = false ∧
  (getCell s p.1 p.2).flagged = false ∧ (getCell s p.1 p.2).neighbor_bombs = 0

instance (s : GameState) (p : Nat × Nat) : Decidable (ZeroCell s p) := by
  unfold ZeroCell; infer_instance

/-- 8-neighborhood adjacency (including the cell itself), written with
the offset table the code iterates over. -/
def Adj (p q : Nat × Nat) : Prop :=
  ∃ o ∈ offsets9, (q.1 : Int) = (p.1 : Int) + o.2 ∧ (q.2 : Int) = (p.2 : Int) + o.1

/-- The cells the flood fill started at `start` may legitimately reach:
the connected region of in-bounds unflagged zero-count cells around
`start`, together with the unflagged in-bounds cells bordering it.
Flagged cells are neither entered nor crossed. -/
inductive ZReach (s : GameState) (start : Nat × Nat) : Nat × Nat → Prop where
  | refl : ZReach s start start
  | tail {p q : Nat × Nat} : ZReach s start p → ZeroCell s p → Adj p q →
      q.1 < s.height → q.2 < s.width → (getCell s q.1 q.2).flagged = false →
      ZReach s start q

/-! #### The settings form (`ConfigFrame.apply_settings`) -/

/-- The custom difficulty entry of the configuration document. -/
structure CustomDiff where
  width : Nat
  height : Nat
  mines : Nat
deriving Repr, DecidableEq

/-- The parts of the configuration document `apply_settings` interacts
with. -/
structure ConfigData where
  current_diff : String
  current_theme : String
  custom : CustomDiff
deriving Repr, DecidableEq

/-- The in-memory configuration (`config.config`) and the persisted
document (`config.json`). -/
structure SettingsState where
  mem : ConfigData
  disk : ConfigData
deriving Repr, DecidableEq

/-- Python's `str.isdigit` restricted to ASCII input: non-empty and all
decimal digits (the program's own entries are ASCII). -/
def pyIsDigit (str : String) : Bool :=
  !str.isEmpty && str.toList.all (fun ch => ch.isDigit)

/-- Python's `int` on a digit string (after `isdigit`, `strip()` is the
identity). -/
def strToNat (str : String) : Nat :=
  str.toList.foldl (fun n ch => n * 10 + (ch.toNat - '0'.toNat)) 0

/-- `ConfigFrame.apply_settings`.  Returns the new settings state and
whether a validation error dialog was shown.  The in-memory
`current_diff`/`current_theme` are written *before* validation, exactly
as in the source; on success the document is dumped to disk and
`reload_config` copies it back into memory.

The float comparison `mines >= width * height * 0.8 - 9` is modelled by
the integer comparison `5 * mines + 45 ≥ 4 * (width * height)`: at this
point `4 ≤ width, height ≤ 100`, the double nearest to 0.8 is
`4/5 + 4/(5·2^54)`, so `width*height*0.8` differs from the rational
`4·width·height/5` by less than `10^-12` and rounds to it exactly
whenever the latter is representable; a non-tie comparison against the
integer `mines` differs from the rational one by at least `1/5`. -/
def apply_settings (st : SettingsState) (sel_diff sel_theme h_str w_str m_str : String) :
    SettingsState × Bool :=
  let mem1 : ConfigData := { st.mem with current_diff := sel_diff, current_theme := sel_theme }
  if sel_diff = "custom" then
    if !(pyIsDigit h_str && pyIsDigit w_str && pyIsDigit m_str) then
      ({ st with mem := mem1 }, true)
    else
      let height := strToNat h_str
      let width := strToNat w_str
      let mines := strToNat m_str
      if height < 4 ∨ width < 4 ∨ height > 100 ∨ width > 100 then
        ({ st with mem := mem1 }, true)
      else if 5 * mines + 45 ≥ 4 * (width * height) then
        ({ st with mem := mem1 }, true)
      else if mines < 1 then
        ({ st with mem := mem1 }, true)
      else
        let mem2 := { mem1 with
          custom := { width := width, height := height, mines := mines } }
        ({ mem := mem2, disk := mem2 }, false)
  else
    ({ mem := mem1, disk := mem1 }, false)

/-- The custom-difficulty inputs that the validation of `apply_settings`
rejects. -/
def customInvalid (h_str w_str m_str : String) : Bool :=
  if !(pyIsDigit h_str && pyIsDigit w_str && pyIsDigit m_str) then true
  else
    let height := strToNat h_str
    let width := strToNat w_str
    let mines := strToNat m_str
    if height < 4 ∨ width < 4 ∨ height > 100 ∨ width > 100 then true
    else if 5 * mines + 45 ≥ 4 * (width * height) then true
    else if mines < 1 then true
    else false

/-! #### Concrete states used as counterexamples and witnesses -/

/-- A consistent mid-game 1×2 board: the left cell is revealed with
neighbor-mine count 0, the right cell is hidden; there are no mines. -/
def exC7 : GameState :=
  { width := 2, height := 1,
    field := [[{ newCell with revealed := true }, newCell]],
    all_cords := [1], def_zone := [], danger_cords := [],
    mines := 0, mines_label := "Bombs: 0",
    btn_colors := [[pressed_color, button_color]],
    popups := [], running := true, time_elapsed := 5,
    current_diff := "easy", best_time := 9999, first_click := false }

/-- A consistent 1×2 board whose right cell is a hidden mine. -/
def exC9 : GameState :=
  { width := 2, height := 1,
    field := [[{ newCell with neighbor_bombs := 1 }, { newCell with bomb := true }]],
    all_cords := [0], def_zone := [], danger_cords := [],
    mines := 1, mines_label := "Bombs: 1",
    btn_colors := [[button_color, button_color]],
    popups := [], running := true, time_elapsed := 3,
    current_diff := "easy", best_time := 9999, first_click := false }

/-- The best-time record after `check_best` runs. -/
def bestAfter (s : GameState) : Nat := (check_best s).best_time

/-- How the popups, the timer and the best-time record of the post-state
`T` relate to the pre-state `s` over one reveal cascade: the popup list
is extended by `ext`; a win popup appears iff this cascade emptied
`all_cords`; a loss popup appears iff `bombHit`; an outcome stops the
timer, a win runs `check_best`, and otherwise timer and record are
untouched. -/
def PopsSpec (s T : GameState) (bombHit : Prop) : Prop :=
  ∃ ext, T.popups = s.popups ++ ext ∧
    ((true ∈ ext) ↔ (T.all_cords = [] ∧ s.all_cords ≠ [])) ∧
    ((false ∈ ext) ↔ bombHit) ∧
    (ext = [] → T.running = s.running ∧ T.best_time = s.best_time) ∧
    (ext ≠ [] → T.running = false) ∧
    ((true ∈ ext) → T.best_time = bestAfter s) ∧
    ((true ∉ ext) → T.best_time = s.best_time)

/-- Every cell newly revealed by the cascade that is a zero-count
non-mine cell has all of its in-bounds unflagged neighbors revealed in
the post-state. -/
def ZeroClosed (s T : GameState) : Prop :=
  ∀ r c, (getCell T r c).revealed = true → (getCell s r c).revealed = false →
    r < s.height → c < s.width → (getCell s r c).bomb = false →
    (getCell s r c).neighbor_bombs = 0 →
    ∀ o ∈ offsets9, 0 ≤ (c : Int) + o.1 → (c : Int) + o.1 < (s.width : Int) →
      0 ≤ (r : Int) + o.2 → (r : Int) + o.2 < (s.height : Int) →
      (getCell s ((r : Int) + o.2).toNat ((c : Int) + o.1).toNat).flagged = false →
      (getCell T ((r : Int) + o.2).toNat ((c : Int) + o.1).toNat).revealed = true

/-- Every revealed cell of the post-state was already revealed or is
accounted for by `post`. -/
def SoundRel (s T : GameState) (post : Nat → Nat → Prop) : Prop :=
  ∀ r c, (getCell T r c).revealed = true → (getCell s r c).revealed = true ∨ post r c

/-- The full contract of one reveal cascade from `s` to `T`. -/
structure RevealOut (s T : GameState) (bombHit : Prop) (post : Nat → Nat → Prop) : Prop where
  tame : Tame T s
  inv : InvCords T
  pops : PopsSpec s T bombHit
  closed : ZeroClosed s T
  sound : SoundRel s T post

/-- The induction statement for `revealF` on a hidden cell of a
well-formed, invariant-respecting, consistent state with enough fuel. -/
def MasterStmt (fuel : Nat) : Prop :=
  ∀ (s : GameState) (row col : Nat),
    WF s → InvCords s → Consistent s → uc s < fuel →
    row < s.height → col < s.width → (getCell s row col).revealed = false →
    RevealOut s (revealF fuel s row col)
      ((getCell s row col).bomb = true ∧ (getCell s row col).flagged = false)
      (fun r c => ZReach s (row, col) (r, c)) ∧
    ((getCell s row col).flagged = false → (getCell s row col).bomb = false →
      (getCell (revealF fuel s row col) row col).revealed = true)

/-- The target of a loop offset is inside the field. -/
def TgtIn (s : GameState) (tgtR tgtC : Int × Int → Int) (o : Int × Int) : Prop :=
  0 ≤ tgtC o ∧ tgtC o < (s.width : Int) ∧ 0 ≤ tgtR o ∧ tgtR o < (s.height : Int)

/-- The target of a loop offset is an in-bounds hidden unflagged mine
(the way a flood or chord loop can lose the game). -/
def TgtBomb (s : GameState) (tgtR tgtC : Int × Int → Int) (o : Int × Int) : Prop :=
  TgtIn s tgtR tgtC o ∧
  (getCell s (tgtR o).toNat (tgtC o).toNat).bomb = true ∧
  (getCell s (tgtR o).toNat (tgtC o).toNat).flagged = false ∧
  (getCell s (tgtR o).toNat (tgtC o).toNat).revealed = false

/-- A cell is reachable from the in-bounds unflagged target of a loop
offset. -/
def TgtReach (s : GameState) (tgtR tgtC : Int × Int → Int)
    (o : Int × Int) (r c : Nat) : Prop :=
  TgtIn s tgtR tgtC o ∧
  (getCell s (tgtR o).toNat (tgtC o).toNat).flagged = false ∧
  ZReach s ((tgtR o).toNat, (tgtC o).toNat) (r, c)

/-- How one iteration of a reveal loop (`floodStep` or `chordStep`) acts:
out-of-bounds targets and revealed targets are skipped, and a hidden
target is either handed to `revealF` or skipped because it is flagged. -/
def StepChar (fuel : Nat) (step : GameState → Int × Int → GameState)
    (tgtR tgtC : Int × Int → Int) (o : Int × Int) : Prop :=
  ∀ t : GameState,
    (¬(0 ≤ tgtC o ∧ tgtC o < (t.width : Int) ∧ 0 ≤ tgtR o ∧ tgtR o < (t.height : Int)) →
      step t o = t) ∧
    ((0 ≤ tgtC o ∧ tgtC o < (t.width : Int) ∧ 0 ≤ tgtR o ∧ tgtR o < (t.height : Int)) →
      ((getCell t (tgtR o).toNat (tgtC o).toNat).revealed = true → step t o = t) ∧
      ((getCell t (tgtR o).toNat (tgtC o).toNat).revealed = false →
        step t o = revealF fuel t (tgtR o).toNat (tgtC o).toNat ∨
        (step t o = t ∧ (getCell t (tgtR o).toNat (tgtC o).toNat).flagged = true)))

/-- A 1×3 mine-free board with nothing revealed: every cell is a
zero-count cell (used as the flood-fill example). -/
def exC3 : GameState :=
  { width := 3, height := 1,
    field := [[newCell, newCell, newCell]],
    all_cords := [0, 1, 2], def_zone := [], danger_cords := [],
    mines := 0, mines_label := "Bombs: 0",
    btn_colors := [[button_color, button_color, button_color]],
    popups := [], running := true, time_elapsed := 0,
    current_diff := "easy", best_time := 9999, first_click := false }

/-! ### Basic list and cell-access lemmas -/

theorem list_set_self {α : Type _} {l : List α} {i : Nat} {a : α}
    (h : l[i]? = some a) : l.set i a = l := by
  induction l generalizing i with
  | nil => simp [List.set]
  | cons x xs ih =>
    cases i with
    | zero => simp only [List.getElem?_cons_zero] at h; cases h; rfl
    | succ n =>
      simp only [List.getElem?_cons_succ] at h
      simp only [List.set, List.cons.injEq, true_and]
      exact ih h

theorem getCell_updateCell_ne (s : GameState) (row col : Nat) (f : Cell → Cell)
    {r c : Nat} (h : ¬(r = row ∧ c = col)) :
    getCell (updateCell s row col f) r c = getCell s r c := by
  simp only [getCell, updateCell, List.getElem?_set]
  by_cases hr : row = r
  · subst hr
    have hc : ¬col = c := fun hc => h ⟨rfl, hc.symm⟩
    by_cases hrow : row < s.field.length
    · simp [hrow, hc, List.getElem?_set]
    · have hnone : s.field[row]? = none := by
        rw [List.getElem?_eq_none_iff]; omega
      simp [hrow, hnone]
  · simp [hr]

theorem getCell_updateCell_self (s : GameState) (row col : Nat) (f : Cell → Cell)
    (hr : row < s.field.length) (hc : col < (s.field[row]?.getD []).length) :
    getCell (updateCell s row col f) row col = f (getCell s row col) := by
  have hrg : s.field[row]? = some s.field[row] := List.getElem?_eq_getElem hr
  have hc' : col < s.field[row].length := by simpa [hrg] using hc
  simp only [getCell, updateCell, List.getElem?_set, hrg, Option.getD_some]
  simp [hr, hc', List.getElem?_set]

theorem field_shape_updateCell (s : GameState) (row col : Nat) (f : Cell → Cell) :
    (updateCell s row col f).field.map List.length = s.field.map List.length := by
  simp only [updateCell]
  rw [List.map_set]
  by_cases hrow : row < s.field.length
  · have hrg : s.field[row]? = some s.field[row] := List.getElem?_eq_getElem hrow
    rw [hrg]
    simp only [Option.getD_some]
    rw [List.length_set]
    apply list_set_self
    rw [List.getElem?_map, hrg]
    rfl
  · rw [List.set_eq_of_length_le (by simpa using (by omega : s.field.length ≤ row))]

theorem length_getD_congr {α : Type _} {o1 o2 : Option (List α)}
    (h : o1.map List.length = o2.map List.length) :
    (o1.getD []).length = (o2.getD []).length := by
  cases o1 <;> cases o2 <;> simp_all

/-- Row lengths, as read through `getD`, of two fields with equal shape. -/
theorem row_length_of_shape {t s : GameState}
    (hs : t.field.map List.length = s.field.map List.length) (r : Nat) :
    (t.field[r]?.getD []).length = (s.field[r]?.getD []).length := by
  apply length_getD_congr
  rw [← List.getElem?_map, ← List.getElem?_map, hs]

theorem WF_of_shape {t s : GameState}
    (hs : t.field.map List.length = s.field.map List.length)
    (hw : t.width = s.width) (hh : t.height = s.height)
    (h : WF s) : WF t := by
  obtain ⟨h1, h2⟩ := h
  refine ⟨?_, ?_⟩
  · have := congrArg List.length hs
    simp only [List.length_map] at this
    omega
  · intro r hr
    rw [row_length_of_shape hs r, hw]
    exact h2 r (by omega)

theorem WF_updateCell (s : GameState) (row col : Nat) (f : Cell → Cell)
    (h : WF s) : WF (updateCell s row col f) :=
  WF_of_shape (field_shape_updateCell s row col f) rfl rfl h

theorem updateCell_field_oob (s : GameState) (row col : Nat) (f : Cell → Cell)
    (h : ¬(row < s.field.length ∧ col < (s.field[row]?.getD []).length)) :
    (updateCell s row col f).field = s.field := by
  unfold updateCell
  simp only
  by_cases hr : row < s.field.length
  · have hc : ¬col < (s.field[row]?.getD []).length := fun hc => h ⟨hr, hc⟩
    have h1 : (s.field[row]?.getD []).set col (f (getCell s row col)) = s.field[row]?.getD [] :=
      List.set_eq_of_length_le (by omega)
    rw [h1]
    have h2 : s.field[row]?.getD [] = s.field[row] := by
      rw [List.getElem?_eq_getElem hr]; rfl
    rw [h2]
    exact list_set_self (List.getElem?_eq_getElem hr)
  · exact List.set_eq_of_length_le (by omega)

theorem getCell_updateCell_oob (s : GameState) (row col : Nat) (f : Cell → Cell)
    (h : ¬(row < s.field.length ∧ col < (s.field[row]?.getD []).length)) (r c : Nat) :
    getCell (updateCell s row col f) r c = getCell s r c := by
  unfold getCell
  rw [updateCell_field_oob s row col f h]

theorem cellStatic_getCell_updateCell (s : GameState) (row col : Nat) (f : Cell → Cell)
    (hf : ∀ x, cellStatic (f x) = cellStatic x) (r c : Nat) :
    cellStatic (getCell (updateCell s row col f) r c) = cellStatic (getCell s r c) := by
  by_cases hrc : r = row ∧ c = col
  · obtain ⟨hr, hc⟩ := hrc
    subst hr; subst hc
    by_cases hb : r < s.field.length ∧ c < (s.field[r]?.getD []).length
    · rw [getCell_updateCell_self s r c f hb.1 hb.2]
      exact hf _
    · rw [getCell_updateCell_oob s r c f hb]
  · rw [getCell_updateCell_ne s row col f hrc]

theorem StaticEq.refl (s : GameState) : StaticEq s s :=
  ⟨rfl, rfl, rfl, fun _ _ => rfl, rfl, rfl, rfl, rfl, rfl, rfl, rfl⟩

theorem StaticEq.trans {u t s : GameState} (h1 : StaticEq u t) (h2 : StaticEq t s) :
    StaticEq u s :=
  ⟨h1.w.trans h2.w, h1.h.trans h2.h, h1.shape.trans h2.shape,
   fun r c => (h1.cell r c).trans (h2.cell r c), h1.dz.trans h2.dz,
   h1.dgc.trans h2.dgc, h1.mines.trans h2.mines, h1.label.trans h2.label,
   h1.fcl.trans h2.fcl, h1.diff.trans h2.diff, h1.te.trans h2.te⟩

theorem cellStatic_bomb {c d : Cell} (h : cellStatic c = cellStatic d) : c.bomb = d.bomb := by
  simp only [cellStatic, Prod.mk.injEq] at h; exact h.1

theorem cellStatic_flagged {c d : Cell} (h : cellStatic c = cellStatic d) :
    c.flagged = d.flagged := by
  simp only [cellStatic, Prod.mk.injEq] at h; exact h.2.1

theorem cellStatic_nb {c d : Cell} (h : cellStatic c = cellStatic d) :
    c.neighbor_bombs = d.neighbor_bombs := by
  simp only [cellStatic, Prod.mk.injEq] at h; exact h.2.2

theorem StaticEq.WF {t s : GameState} (hst : StaticEq t s) (h : WF s) : WF t :=
  WF_of_shape hst.shape hst.w hst.h h

theorem markRevealed_field (s : GameState) (row col : Nat) :
    (markRevealed s row col).field =
      (updateCell s row col (fun c => { c with revealed := true })).field := by
  simp only [markRevealed, winUpdate, check_best, setColor]
  split <;> (try split) <;> rfl

theorem markRevealed_all_cords (s : GameState) (row col : Nat) :
    (markRevealed s row col).all_cords = s.all_cords.erase (row * s.width + col) := by
  simp only [markRevealed, winUpdate, check_best, setColor, updateCell]
  split <;> (try split) <;> rfl

theorem markRevealed_popups (s : GameState) (row col : Nat) :
    (markRevealed s row col).popups =
      if eraseEmpty s row col then s.popups ++ [true] else s.popups := by
  simp only [markRevealed, winUpdate, check_best, setColor, updateCell, eraseEmpty]
  split <;> (try split) <;> simp_all

theorem markRevealed_running (s : GameState) (row col : Nat) :
    (markRevealed s row col).running =
      if eraseEmpty s row col then false else s.running := by
  simp only [markRevealed, winUpdate, check_best, setColor, updateCell, eraseEmpty]
  split <;> (try split) <;> simp_all

theorem markRevealed_best_time (s : GameState) (row col : Nat) :
    (markRevealed s row col).best_time =
      if eraseEmpty s row col ∧ s.current_diff ≠ "custom" ∧ s.time_elapsed < s.best_time
      then s.time_elapsed else s.best_time := by
  simp only [markRevealed, winUpdate, check_best, setColor, updateCell, eraseEmpty]
  split
  · rename_i h1
    split
    · rename_i h2
      rw [if_pos ⟨h1, h2⟩]
    · rename_i h2
      rw [if_neg (fun h => h2 h.2)]
  · rename_i h1
    rw [if_neg (fun h => h1 h.1)]

theorem markRevealed_btn_shape (s : GameState) (row col : Nat) :
    (markRevealed s row col).btn_colors.length = s.btn_colors.length := by
  simp only [markRevealed, winUpdate, check_best, setColor, updateCell]
  split <;> (try split) <;> simp [List.length_set]

/-- `markRevealed` only toggles `revealed`, removes a coordinate from
`all_cords`, recolors a button and possibly triggers the win outcome:
all static components survive. -/
theorem staticEq_markRevealed (s : GameState) (row col : Nat) :
    StaticEq (markRevealed s row col) s := by
  have base : StaticEq (updateCell s row col (fun c => { c with revealed := true })) s :=
    { w := rfl, h := rfl, shape := field_shape_updateCell s row col _,
      cell := cellStatic_getCell_updateCell s row col _ (fun x => rfl),
      dz := rfl, dgc := rfl, mines := rfl, label := rfl, fcl := rfl, diff := rfl, te := rfl }
  have hw : (markRevealed s row col).width = s.width := by
    simp only [markRevealed, winUpdate, check_best, setColor, updateCell]
    split <;> (try split) <;> rfl
  have hh : (markRevealed s row col).height = s.height := by
    simp only [markRevealed, winUpdate, check_best, setColor, updateCell]
    split <;> (try split) <;> rfl
  have hdz : (markRevealed s row col).def_zone = s.def_zone := by
    simp only [markRevealed, winUpdate, check_best, setColor, updateCell]
    split <;> (try split) <;> rfl
  have hdgc : (markRevealed s row col).danger_cords = s.danger_cords := by
    simp only [markRevealed, winUpdate, check_best, setColor, updateCell]
    split <;> (try split) <;> rfl
  have hm : (markRevealed s row col).mines = s.mines := by
    simp only [markRevealed, winUpdate, check_best, setColor, updateCell]
    split <;> (try split) <;> rfl
  have hl : (markRevealed s row col).mines_label = s.mines_label := by
    simp only [markRevealed, winUpdate, check_best, setColor, updateCell]
    split <;> (try split) <;> rfl
  have hfc : (markRevealed s row col).first_click = s.first_click := by
    simp only [markRevealed, winUpdate, check_best, setColor, updateCell]
    split <;> (try split) <;> rfl
  have hdiff : (markRevealed s row col).current_diff = s.current_diff := by
    simp only [markRevealed, winUpdate, check_best, setColor, updateCell]
    split <;> (try split) <;> rfl
  have hte : (markRevealed s row col).time_elapsed = s.time_elapsed := by
    simp only [markRevealed, winUpdate, check_best, setColor, updateCell]
    split <;> (try split) <;> rfl
  have hfield := markRevealed_field s row col
  refine { w := hw, h := hh, dz := hdz, dgc := hdgc, mines := hm, label := hl,
           fcl := hfc, diff := hdiff, te := hte, shape := ?_, cell := ?_ }
  · rw [hfield]; exact base.shape
  · intro r c
    have : getCell (markRevealed s row col) r c =
        getCell (updateCell s row col (fun x => { x with revealed := true })) r c := by
      unfold getCell; rw [hfield]
    rw [this]; exact base.cell r c

theorem staticEq_lossUpdate (s : GameState) (row col : Nat) :
    StaticEq (lossUpdate s row col) s := by
  refine { w := rfl, h := rfl, shape := rfl, cell := fun _ _ => rfl,
           dz := rfl, dgc := rfl, mines := rfl, label := rfl, fcl := rfl,
           diff := rfl, te := rfl }

/-! ### Branch lemmas for the reveal cascade -/

theorem foldl_rec {α β : Type _} {P : α → Prop} {f : α → β → α} {l : List β}
    (h : ∀ a b, b ∈ l → P a → P (f a b)) {a : α} (ha : P a) : P (l.foldl f a) := by
  induction l generalizing a with
  | nil => exact ha
  | cons x xs ih =>
    exact ih (fun a b hb => h a b (List.mem_cons_of_mem _ hb)) (h a x (List.mem_cons_self _ _) ha)

theorem revealF_zero (s : GameState) (row col : Nat) : revealF 0 s row col = s := rfl

theorem revealF_flagged (fuel : Nat) (s : GameState) (row col : Nat)
    (hr : (getCell s row col).revealed = false) (hf : (getCell s row col).flagged = true) :
    revealF fuel s row col = s := by
  cases fuel with
  | zero => rfl
  | succ n =>
    cases hb : (getCell s row col).bomb <;> simp [revealF, hr, hf, hb]

theorem revealF_loss (fuel : Nat) (s : GameState) (row col : Nat)
    (hb : (getCell s row col).bomb = true) (hr : (getCell s row col).revealed = false)
    (hf : (getCell s row col).flagged = false) :
    revealF (fuel + 1) s row col = lossUpdate s row col := by
  simp [revealF, hr, hf, hb]

theorem revealF_revealed (fuel : Nat) (s : GameState) (row col : Nat)
    (hr : (getCell s row col).revealed = true) :
    revealF (fuel + 1) s row col = try_chordF fuel s row col := by
  cases hb : (getCell s row col).bomb <;> simp [revealF, try_chordF, hr, hb]

theorem revealF_flood_pos (fuel : Nat) (s : GameState) (row col : Nat)
    (hb : (getCell s row col).bomb = false) (hr : (getCell s row col).revealed = false)
    (hf : (getCell s row col).flagged = false)
    (hz : (getCell s row col).neighbor_bombs ≠ 0) :
    revealF (fuel + 1) s row col = markRevealed s row col := by
  simp [revealF, hr, hf, hb, hz]

theorem revealF_flood_zero (fuel : Nat) (s : GameState) (row col : Nat)
    (hb : (getCell s row col).bomb = false) (hr : (getCell s row col).revealed = false)
    (hf : (getCell s row col).flagged = false)
    (hz : (getCell s row col).neighbor_bombs = 0) :
    revealF (fuel + 1) s row col =
      offsets9.foldl (floodStep fuel row col) (markRevealed s row col) := by
  rw [revealF]
  simp only [hb, hr, hf, hz, Bool.not_false, Bool.and_self, eq_self_iff_true, if_true]
  rfl

theorem try_chordF_unrevealed (fuel : Nat) (s : GameState) (row col : Nat)
    (hr : (getCell s row col).revealed = false) :
    try_chordF fuel s row col = s := by
  simp [try_chordF, hr]

theorem try_chordF_mismatch (fuel : Nat) (s : GameState) (row col : Nat)
    (h : flaggedCount s row col ≠ (getCell s row col).neighbor_bombs) :
    try_chordF fuel s row col = s := by
  unfold try_chordF
  cases hrev : (getCell s row col).revealed with
  | false => simp [hrev]
  | true => simp [hrev, h]

theorem try_chordF_match (fuel : Nat) (s : GameState) (row col : Nat)
    (hr : (getCell s row col).revealed = true)
    (h : flaggedCount s row col = (getCell s row col).neighbor_bombs) :
    try_chordF fuel s row col = offsets9.foldl (chordStep fuel row col) s := by
  rw [try_chordF]
  simp only [hr, h, Bool.not_true, Bool.false_eq_true, if_false, eq_self_iff_true, if_true]
  rfl

/-! ### Counting unrevealed cells -/

theorem countP_set_le {α : Type _} (p : α → Bool) (l : List α) (i : Nat) (x : α)
    (hx : p x = false) : (l.set i x).countP p ≤ l.countP p := by
  induction l generalizing i with
  | nil => simp [List.set]
  | cons a as ih =>
    cases i with
    | zero => simp [List.set, List.countP_cons, hx]
    | succ n =>
      simp only [List.set, List.countP_cons]
      have := ih n
      omega

theorem countP_set_prev {α : Type _} (p : α → Bool) (l : List α) (i : Nat) (x : α)
    (hi : i < l.length) (hold : p l[i] = true) (hx : p x = false) :
    (l.set i x).countP p + 1 = l.countP p := by
  induction l generalizing i with
  | nil => simp at hi
  | cons a as ih =>
    cases i with
    | zero =>
      simp only [List.getElem_cons_zero] at hold
      simp [List.set, List.countP_cons, hx, hold]
    | succ n =>
      simp only [List.getElem_cons_succ] at hold
      have hn : n < as.length := by simpa using hi
      have := ih n hn hold
      simp only [List.set, List.countP_cons]
      omega

theorem sum_set_le (l : List Nat) (i : Nat) (a : Nat) (h : a ≤ l.getD i 0) :
    (l.set i a).sum ≤ l.sum := by
  induction l generalizing i with
  | nil => simp [List.set]
  | cons x xs ih =>
    cases i with
    | zero =>
      simp only [List.getD_cons_zero] at h
      simp [List.set]; omega
    | succ n =>
      simp only [List.getD_cons_succ] at h
      simp only [List.set, List.sum_cons]
      have := ih n h
      omega

theorem sum_set_prev (l : List Nat) (i : Nat) (a : Nat) (h : a + 1 = l.getD i 0) :
    (l.set i a).sum + 1 = l.sum := by
  induction l generalizing i with
  | nil => simp [List.getD] at h
  | cons x xs ih =>
    cases i with
    | zero =>
      simp only [List.getD_cons_zero] at h
      simp [List.set]; omega
    | succ n =>
      simp only [List.getD_cons_succ] at h
      have := ih n h
      simp [List.set]; omega

theorem uc_congr_field {t s : GameState} (h : t.field = s.field) : uc t = uc s := by
  unfold uc; rw [h]

theorem getD_map_getD {α β : Type _} (f : α → β) (l : List α) (i : Nat) (d : α) :
    (l.map f).getD i (f d) = f (l.getD i d) := by
  induction l generalizing i with
  | nil => simp [List.getD]
  | cons x xs ih =>
    cases i with
    | zero => simp
    | succ n => simpa using ih n


theorem uc_updateCell_revealed_le (s : GameState) (row col : Nat) :
    uc (updateCell s row col (fun c => { c with revealed := true })) ≤ uc s := by
  unfold uc updateCell
  simp only [List.map_set]
  apply sum_set_le
  have hmap : (s.field.map (fun row => row.countP (fun c => !c.revealed))).getD row 0 =
      (s.field.getD row []).countP (fun c => !c.revealed) := by
    have := getD_map_getD (fun (row : List Cell) => row.countP (fun c => !c.revealed)) s.field row []
    simpa using this
  rw [hmap]
  rw [List.getD_eq_getElem?_getD]
  exact countP_set_le _ _ _ _ (by simp)

theorem uc_updateCell_revealed_lt (s : GameState) (row col : Nat)
    (hr : row < s.field.length) (hc : col < (s.field[row]?.getD []).length)
    (hrev : (getCell s row col).revealed = false) :
    uc (updateCell s row col (fun c => { c with revealed := true })) + 1 = uc s := by
  unfold uc updateCell
  simp only [List.map_set]
  apply sum_set_prev
  have hmap : (s.field.map (fun row => row.countP (fun c => !c.revealed))).getD row 0 =
      (s.field.getD row []).countP (fun c => !c.revealed) := by
    have := getD_map_getD (fun (row : List Cell) => row.countP (fun c => !c.revealed)) s.field row []
    simpa using this
  rw [hmap, List.getD_eq_getElem?_getD]
  have hget : s.field[row]?.getD [] = s.field[row] := by
    rw [List.getElem?_eq_getElem hr]; rfl
  have hc' : col < s.field[row].length := by rw [← hget]; exact hc
  have hcell : getCell s row col = s.field[row][col] := by
    unfold getCell
    rw [List.getElem?_eq_getElem hr]
    simp only [Option.getD_some]
    rw [List.getElem?_eq_getElem hc']
    rfl
  rw [hget]
  apply countP_set_prev _ _ _ _ hc'
  · rw [← hcell]; simp [hrev]
  · simp

theorem uc_markRevealed_le (s : GameState) (row col : Nat) :
    uc (markRevealed s row col) ≤ uc s := by
  rw [uc_congr_field (markRevealed_field s row col)]
  exact uc_updateCell_revealed_le s row col

theorem uc_markRevealed_lt (s : GameState) (row col : Nat)
    (hr : row < s.field.length) (hc : col < (s.field[row]?.getD []).length)
    (hrev : (getCell s row col).revealed = false) :
    uc (markRevealed s row col) + 1 = uc s := by
  rw [uc_congr_field (markRevealed_field s row col)]
  exact uc_updateCell_revealed_lt s row col hr hc hrev

/-! ### The unconditional invariants of a reveal cascade -/

theorem field_length_of_staticEq {t s : GameState} (h : StaticEq t s) :
    t.field.length = s.field.length := by
  have := congrArg List.length h.shape
  simpa using this

theorem Tame.rfl (s : GameState) : Tame s s :=
  { st := StaticEq.refl s, mono := fun _ _ h => h, uc_le := le_rfl,
    cords := List.Sublist.refl _, pops := ⟨[], by simp⟩,
    norf := fun h => h, fresh := fun r c h1 h2 => absurd h1 (by simp [h2]) }

theorem Tame.comp {u t s : GameState} (h1 : Tame u t) (h2 : Tame t s) : Tame u s := by
  refine { st := h1.st.trans h2.st, mono := fun r c h => h1.mono r c (h2.mono r c h),
           uc_le := le_trans h1.uc_le h2.uc_le, cords := h1.cords.trans h2.cords,
           pops := ?_, norf := fun h => h1.norf (h2.norf h), fresh := ?_ }
  · obtain ⟨e1, he1⟩ := h1.pops
    obtain ⟨e2, he2⟩ := h2.pops
    exact ⟨e2 ++ e1, by rw [he1, he2, List.append_assoc]⟩
  · intro r c hru hrs
    cases hrt : (getCell t r c).revealed with
    | true => exact h2.fresh r c hrt hrs
    | false =>
      obtain ⟨hb, hf, hlen, hrow⟩ := h1.fresh r c hru hrt
      refine ⟨?_, ?_, ?_, ?_⟩
      · rw [← cellStatic_bomb (h2.st.cell r c)]; exact hb
      · rw [← cellStatic_flagged (h2.st.cell r c)]; exact hf
      · rw [← field_length_of_staticEq h2.st]; exact hlen
      · rw [← row_length_of_shape h2.st.shape r]
        exact hrow

theorem getCell_updateCell_cases (s : GameState) (row col : Nat) (f : Cell → Cell)
    (r c : Nat) :
    (r = row ∧ c = col ∧ row < s.field.length ∧ col < (s.field[row]?.getD []).length ∧
      getCell (updateCell s row col f) r c = f (getCell s row col)) ∨
    getCell (updateCell s row col f) r c = getCell s r c := by
  by_cases hrc : r = row ∧ c = col
  · obtain ⟨hr, hc⟩ := hrc
    subst hr; subst hc
    by_cases hb : r < s.field.length ∧ c < (s.field[r]?.getD []).length
    · exact Or.inl ⟨rfl, rfl, hb.1, hb.2, getCell_updateCell_self s r c f hb.1 hb.2⟩
    · exact Or.inr (getCell_updateCell_oob s r c f hb r c)
  · exact Or.inr (getCell_updateCell_ne s row col f hrc)

theorem getCell_markRevealed (s : GameState) (row col r c : Nat) :
    getCell (markRevealed s row col) r c =
      getCell (updateCell s row col (fun x => { x with revealed := true })) r c := by
  unfold getCell
  rw [markRevealed_field]

theorem tame_markRevealed (s : GameState) (row col : Nat)
    (hb : (getCell s row col).bomb = false) (hf : (getCell s row col).flagged = false) :
    Tame (markRevealed s row col) s := by
  refine { st := staticEq_markRevealed s row col, mono := ?_,
           uc_le := uc_markRevealed_le s row col, cords := ?_, pops := ?_,
           norf := ?_, fresh := ?_ }
  · intro r c h
    rw [getCell_markRevealed]
    rcases getCell_updateCell_cases s row col (fun x => { x with revealed := true }) r c with
      ⟨_, _, _, _, heq⟩ | heq
    · rw [heq]
    · rw [heq]; exact h
  · rw [markRevealed_all_cords]
    exact List.erase_sublist _ _
  · refine ⟨if eraseEmpty s row col then [true] else [], ?_⟩
    rw [markRevealed_popups]
    split <;> simp
  · intro hno r c hrev
    have hst := (staticEq_markRevealed s row col).cell r c
    rw [cellStatic_flagged hst]
    rw [getCell_markRevealed] at hrev
    rcases getCell_updateCell_cases s row col (fun x => { x with revealed := true }) r c with
      ⟨hr, hc, _, _, heq⟩ | heq
    · subst hr; subst hc; exact hf
    · rw [heq] at hrev; exact hno r c hrev
  · intro r c h1 h2
    rw [getCell_markRevealed] at h1
    rcases getCell_updateCell_cases s row col (fun x => { x with revealed := true }) r c with
      ⟨hr, hc, hl1, hl2, _⟩ | heq
    · subst hr; subst hc; exact ⟨hb, hf, hl1, hl2⟩
    · rw [heq] at h1; rw [h1] at h2; cases h2

theorem tame_lossUpdate (s : GameState) (row col : Nat) :
    Tame (lossUpdate s row col) s := by
  refine { st := staticEq_lossUpdate s row col, mono := fun r c h => h,
           uc_le := le_of_eq (uc_congr_field rfl), cords := List.Sublist.refl _,
           pops := ⟨[false], rfl⟩, norf := fun h => h,
           fresh := fun r c h1 h2 => by
             rw [show getCell (lossUpdate s row col) r c = getCell s r c from rfl] at h1
             rw [h1] at h2; cases h2 }

/-- Any run of `Cell.reveal`, with any fuel, is `Tame`. -/
theorem tame_revealF (fuel : Nat) : ∀ (s : GameState) (row col : Nat),
    Tame (revealF fuel s row col) s := by
  induction fuel with
  | zero => intro s row col; exact Tame.rfl s
  | succ n ih =>
    intro s row col
    cases hrev : (getCell s row col).revealed with
    | true =>
      rw [revealF_revealed n s row col hrev]
      by_cases hm : flaggedCount s row col = (getCell s row col).neighbor_bombs
      · rw [try_chordF_match n s row col hrev hm]
        refine foldl_rec (P := fun t => Tame t s) ?_ (Tame.rfl s)
        intro t p _ ht
        simp only [chordStep]
        split
        · exact (ih t _ _).comp ht
        · exact ht
      · rw [try_chordF_mismatch n s row col hm]
        exact Tame.rfl s
    | false =>
      cases hf : (getCell s row col).flagged with
      | true =>
        rw [revealF_flagged (n + 1) s row col hrev hf]
        exact Tame.rfl s
      | false =>
        cases hb : (getCell s row col).bomb with
        | true =>
          rw [revealF_loss n s row col hb hrev hf]
          exact tame_lossUpdate s row col
        | false =>
          by_cases hz : (getCell s row col).neighbor_bombs = 0
          · rw [revealF_flood_zero n s row col hb hrev hf hz]
            refine foldl_rec (P := fun t => Tame t s) ?_ (tame_markRevealed s row col hb hf)
            intro t p _ ht
            simp only [floodStep]
            split
            · exact (ih t _ _).comp ht
            · exact ht
          · rw [revealF_flood_pos n s row col hb hrev hf hz]
            exact tame_markRevealed s row col hb hf

/-- `Cell.try_chord`, with any fuel, is `Tame`. -/
theorem tame_try_chordF (fuel : Nat) (s : GameState) (row col : Nat) :
    Tame (try_chordF fuel s row col) s := by
  cases hrev : (getCell s row col).revealed with
  | false => rw [try_chordF_unrevealed fuel s row col hrev]; exact Tame.rfl s
  | true =>
    by_cases hm : flaggedCount s row col = (getCell s row col).neighbor_bombs
    · rw [try_chordF_match fuel s row col hrev hm]
      refine foldl_rec (P := fun t => Tame t s) ?_ (Tame.rfl s)
      intro t p _ ht
      simp only [chordStep]
      split
      · exact (tame_revealF fuel t _ _).comp ht
      · exact ht
    · rw [try_chordF_mismatch fuel s row col hm]
      exact Tame.rfl s

/-! ### Claim C5: neighbor counts -/

theorem getCell_calc (s : GameState) (r c : Nat) (hr : r < s.height) (hc : c < s.width) :
    getCell (calculate_neighbor_bombs s) r c =
      (if !(getCell s r c).bomb then { getCell s r c with neighbor_bombs := calcCount s r c }
       else getCell s r c) := by
  unfold getCell calculate_neighbor_bombs
  simp only [List.getElem?_map, List.getElem?_range hr, Option.map_some', Option.getD_some,
    List.getElem?_range hc]
  rfl

theorem calcCount_eq_neighborMines (s : GameState) (r c : Nat)
    (hr : r < s.height) (hc : c < s.width) (hb : (getCell s r c).bomb = false) :
    calcCount s r c = neighborMines s r c := by
  unfold calcCount neighborMines
  have hctr : (getCell s ((r : Int) + 0).toNat ((c : Int) + 0).toNat).bomb = false := by
    simpa using hb
  simp only [offsets9, offsets8, List.filter, hctr]
  simp [hctr]

/-- Claim C5: after `calculate_neighbor_bombs`, every non-mine cell's
stored `neighbor_bombs` equals the number of mines among its in-bounds
8-neighbors. -/
theorem C5_calculate_neighbor_bombs (s : GameState) (r c : Nat)
    (hr : r < s.height) (hc : c < s.width) (hb : (getCell s r c).bomb = false) :
    (getCell (calculate_neighbor_bombs s) r c).neighbor_bombs = neighborMines s r c := by
  rw [getCell_calc s r c hr hc]
  rw [if_pos (by simp [hb])]
  simp only
  exact calcCount_eq_neighborMines s r c hr hc hb

theorem C5_witness :
    0 < exC9.height ∧ 0 < exC9.width ∧ (getCell exC9 0 0).bomb = false ∧
    (getCell (calculate_neighbor_bombs exC9) 0 0).neighbor_bombs = neighborMines exC9 0 0 :=
  ⟨by decide, by decide, by decide,
    C5_calculate_neighbor_bombs exC9 0 0 (by decide) (by decide) (by decide)⟩

/-! ### Claim C6: settings validation -/

/-- Counterexample to claim C6: applying settings with the custom
difficulty selected and an invalid mine count (999 on a 10×10 grid) is
rejected with an error dialog, yet the in-memory configuration *is*
changed: `current_diff` has become `"custom"` (it was `"easy"`), because
`apply_settings` writes `current_diff`/`current_theme` into
`config.config` before validating.  The persisted document is untouched. -/
theorem C6_counterexample :
    let st0 : SettingsState :=
      { mem := { current_diff := "easy", current_theme := "dark",
                 custom := { width := 10, height := 10, mines := 1 } },
        disk := { current_diff := "easy", current_theme := "dark",
                  custom := { width := 10, height := 10, mines := 1 } } }
    let r := apply_settings st0 "custom" "dark" "10" "10" "999"
    customInvalid "10" "10" "999" = true ∧
    r.2 = true ∧
    r.1.mem.current_diff ≠ st0.mem.current_diff ∧
    r.1.disk = st0.disk := by
  decide

/-- Claim C6 as amended: on any invalid custom-difficulty input the
error dialog is shown, the persisted document and the stored custom
width/height/mines are unchanged, but the in-memory current difficulty
and current theme are overwritten with the selected values. -/
theorem C6_apply_settings_invalid (st : SettingsState) (sel_theme h_str w_str m_str : String)
    (hinv : customInvalid h_str w_str m_str = true) :
    (apply_settings st "custom" sel_theme h_str w_str m_str).2 = true ∧
    (apply_settings st "custom" sel_theme h_str w_str m_str).1.disk = st.disk ∧
    (apply_settings st "custom" sel_theme h_str w_str m_str).1.mem.custom = st.mem.custom ∧
    (apply_settings st "custom" sel_theme h_str w_str m_str).1.mem.current_diff = "custom" ∧
    (apply_settings st "custom" sel_theme h_str w_str m_str).1.mem.current_theme = sel_theme := by
  unfold apply_settings
  unfold customInvalid at hinv
  rw [if_pos rfl]
  by_cases h1 : (!(pyIsDigit h_str && pyIsDigit w_str && pyIsDigit m_str)) = true
  · rw [if_pos h1]
    exact ⟨rfl, rfl, rfl, rfl, rfl⟩
  · rw [if_neg h1] at hinv ⊢
    by_cases h2 : strToNat h_str < 4 ∨ strToNat w_str < 4 ∨ strToNat h_str > 100 ∨
        strToNat w_str > 100
    · rw [if_pos h2]
      exact ⟨rfl, rfl, rfl, rfl, rfl⟩
    · rw [if_neg h2] at hinv ⊢
      by_cases h3 : 5 * strToNat m_str + 45 ≥ 4 * (strToNat w_str * strToNat h_str)
      · rw [if_pos h3]
        exact ⟨rfl, rfl, rfl, rfl, rfl⟩
      · rw [if_neg h3] at hinv ⊢
        by_cases h4 : strToNat m_str < 1
        · rw [if_pos h4]
          exact ⟨rfl, rfl, rfl, rfl, rfl⟩
        · rw [if_neg h4] at hinv
          cases hinv

theorem C6_witness :
    customInvalid "10" "10" "999" = true ∧
    (apply_settings { mem := { current_diff := "easy", current_theme := "dark",
                               custom := { width := 10, height := 10, mines := 1 } },
                      disk := { current_diff := "easy", current_theme := "dark",
                                custom := { width := 10, height := 10, mines := 1 } } }
        "custom" "light" "10" "10" "999").2 = true :=
  ⟨by decide,
   (C6_apply_settings_invalid _ "light" "10" "10" "999" (by decide)).1⟩

/-! ### Claim C7: re-activating flagged / revealed cells -/

set_option maxRecDepth 4000 in
/-- Counterexample to claim C7: on a consistent 1×2 board whose left
cell is already Revealed with neighbor-mine count 0, invoking `reveal`
on it is *not* a no-op: the code calls `try_chord` for every
already-revealed cell (not only numbered ones), the flagged-neighbor
count 0 matches the cell's count 0, and the hidden right cell gets
revealed. -/
theorem C7_counterexample :
    (getCell exC7 0 0).revealed = true ∧
    (getCell exC7 0 0).neighbor_bombs = 0 ∧
    (getCell exC7 0 0).flagged = false ∧
    (getCell exC7 0 1).revealed = false ∧
    (getCell (reveal exC7 0 0) 0 1).revealed = true ∧
    reveal exC7 0 0 ≠ exC7 := by
  decide

/-- Claim C7 as amended: revealing a Flagged hidden cell is a no-op;
revealing an already-Revealed cell — numbered or zero-count alike —
dispatches to `try_chord`; and chording with a mismatched
flagged-neighbor count leaves the state unchanged. -/
theorem C7_reveal_flagged_or_revealed (s : GameState) (row col : Nat) :
    ((getCell s row col).revealed = false → (getCell s row col).flagged = true →
      reveal s row col = s) ∧
    ((getCell s row col).revealed = true →
      reveal s row col = try_chord s row col) ∧
    ((getCell s row col).revealed = true →
      flaggedCount s row col ≠ (getCell s row col).neighbor_bombs →
      reveal s row col = s) := by
  refine ⟨?_, ?_, ?_⟩
  · intro hrev hf
    exact revealF_flagged (uc s + 2) s row col hrev hf
  · intro hrev
    exact revealF_revealed (uc s + 1) s row col hrev
  · intro hrev hm
    rw [show reveal s row col = try_chordF (uc s + 1) s row col from
      revealF_revealed (uc s + 1) s row col hrev]
    exact try_chordF_mismatch (uc s + 1) s row col hm

theorem C7_witness :
    (getCell exC7 0 0).revealed = true ∧ reveal exC7 0 0 = try_chord exC7 0 0 :=
  ⟨by decide, (C7_reveal_flagged_or_revealed exC7 0 0).2.1 (by decide)⟩

/-! ### Claim C9: the flag round trip -/

theorem gameState_ext {a b : GameState}
    (h1 : a.width = b.width) (h2 : a.height = b.height) (h3 : a.field = b.field)
    (h4 : a.all_cords = b.all_cords) (h5 : a.def_zone = b.def_zone)
    (h6 : a.danger_cords = b.danger_cords) (h7 : a.mines = b.mines)
    (h8 : a.mines_label = b.mines_label) (h9 : a.btn_colors = b.btn_colors)
    (h10 : a.popups = b.popups) (h11 : a.running = b.running)
    (h12 : a.time_elapsed = b.time_elapsed) (h13 : a.current_diff = b.current_diff)
    (h14 : a.best_time = b.best_time) (h15 : a.first_click = b.first_click) : a = b := by
  cases a; cases b; simp_all

/-- `set_flag` on a hidden cell that becomes flagged. -/
theorem set_flag_to_flagged (s : GameState) (row col : Nat)
    (hfl : row < s.field.length) (hcl : col < (s.field[row]?.getD []).length)
    (hrev : (getCell s row col).revealed = false)
    (horig : (getCell s row col).flagged = false) :
    set_flag s row col =
      { updateCell s row col (fun c => { c with flagged := !c.flagged }) with
        btn_colors := s.btn_colors.set row ((s.btn_colors[row]?.getD []).set col flag_color),
        mines := s.mines - 1,
        mines_label := if 0 ≤ s.mines - 1 then "Bombs: " ++ toString (s.mines - 1)
                       else "Are you dumb?" } := by
  unfold set_flag
  rw [if_pos (by simp [hrev])]
  dsimp only
  have hu : getCell (updateCell s row col (fun c => { c with flagged := !c.flagged })) row col
      = { getCell s row col with flagged := !(getCell s row col).flagged } :=
    getCell_updateCell_self s row col _ hfl hcl
  rw [hu, horig]
  simp only [Bool.not_false, if_true, setColor]
  rfl

/-- `set_flag` on a hidden cell that becomes unflagged. -/
theorem set_flag_to_unflagged (s : GameState) (row col : Nat)
    (hfl : row < s.field.length) (hcl : col < (s.field[row]?.getD []).length)
    (hrev : (getCell s row col).revealed = false)
    (horig : (getCell s row col).flagged = true) :
    set_flag s row col =
      { updateCell s row col (fun c => { c with flagged := !c.flagged }) with
        btn_colors := s.btn_colors.set row ((s.btn_colors[row]?.getD []).set col button_color),
        mines := s.mines + 1,
        mines_label := if 0 ≤ s.mines + 1 then "Bombs: " ++ toString (s.mines + 1)
                       else "Are you dumb?" } := by
  unfold set_flag
  rw [if_pos (by simp [hrev])]
  dsimp only
  have hu : getCell (updateCell s row col (fun c => { c with flagged := !c.flagged })) row col
      = { getCell s row col with flagged := !(getCell s row col).flagged } :=
    getCell_updateCell_self s row col _ hfl hcl
  rw [hu, horig]
  simp only [Bool.not_true, if_false, setColor]
  rfl

theorem updateCell_toggle_twice (s : GameState) (row col : Nat)
    (hfl : row < s.field.length) (hcl : col < (s.field[row]?.getD []).length)
    (t : GameState)
    (ht : t.field = (updateCell s row col (fun c => { c with flagged := !c.flagged })).field) :
    (updateCell t row col (fun c => { c with flagged := !c.flagged })).field = s.field := by
  have hfield_row : s.field[row]? = some (s.field[row]?.getD []) := by
    rw [List.getElem?_eq_getElem hfl]; rfl
  have hRcol : (s.field[row]?.getD [])[col]? = some (getCell s row col) := by
    unfold getCell
    rw [List.getElem?_eq_getElem hcl]; rfl
  have hrowT : t.field[row]? = some ((s.field[row]?.getD []).set col
      { getCell s row col with flagged := !(getCell s row col).flagged }) := by
    rw [ht]
    show (s.field.set row _)[row]? = _
    rw [List.getElem?_set]
    simp [hfl]
  have hgetRcol : getCell s row col = (s.field[row]?.getD [])[col] := by
    unfold getCell
    rw [List.getElem?_eq_getElem hcl]
    rfl
  have hcellT : getCell t row col =
      { getCell s row col with flagged := !(getCell s row col).flagged } := by
    unfold getCell
    rw [hrowT]
    simp only [Option.getD_some]
    rw [List.getElem?_set]
    simp [hcl, hgetRcol]
  show t.field.set row ((t.field[row]?.getD []).set col
      { getCell t row col with flagged := !(getCell t row col).flagged }) = s.field
  rw [hcellT, hrowT, ht]
  show (s.field.set row _).set row _ = s.field
  rw [List.set_set]
  simp only [Option.getD_some]
  rw [List.set_set]
  have hcell2 : { { getCell s row col with flagged := !(getCell s row col).flagged } with
      flagged := !(!(getCell s row col).flagged) } = getCell s row col := by
    cases hgc : getCell s row col
    simp
  rw [hcell2, list_set_self hRcol]
  exact list_set_self hfield_row

theorem setColor_twice_restore (s : GameState) (row col : Nat)
    (hbl : row < s.btn_colors.length) (hbc : col < (s.btn_colors[row]?.getD []).length)
    (t : GameState) (c1 c2 : String)
    (ht : t.btn_colors = (setColor s row col c1).btn_colors)
    (h2 : btnColor s row col = c2) :
    (setColor t row col c2).btn_colors = s.btn_colors := by
  have hbrow : s.btn_colors[row]? = some (s.btn_colors[row]?.getD []) := by
    rw [List.getElem?_eq_getElem hbl]; rfl
  have hBcol : (s.btn_colors[row]?.getD [])[col]? = some c2 := by
    rw [← h2]
    unfold btnColor
    rw [List.getElem?_eq_getElem hbc]; rfl
  have hrowT : t.btn_colors[row]? = some ((s.btn_colors[row]?.getD []).set col c1) := by
    rw [ht]
    show (s.btn_colors.set row _)[row]? = _
    rw [List.getElem?_set]
    simp [hbl]
  show t.btn_colors.set row ((t.btn_colors[row]?.getD []).set col c2) = s.btn_colors
  rw [hrowT, ht]
  show (s.btn_colors.set row _).set row _ = s.btn_colors
  simp only [Option.getD_some]
  rw [List.set_set, List.set_set, list_set_self hBcol]
  exact list_set_self hbrow

set_option maxRecDepth 4000 in
/-- Counterexample to claim C9: on the board `exC9`, revealing the
hidden mine at (0,1) ends the game as a loss and paints that button
`mines_color`; the cell is still Hidden (a detonated mine is never
marked revealed).  Flagging and then unflagging it restores the flagged
state and the remaining-mines counter, but repaints the button
`button_color` — the prior rendering (`mines_color`) is *not*
restored. -/
theorem C9_counterexample :
    (getCell (reveal exC9 0 1) 0 1).revealed = false ∧
    (getCell (reveal exC9 0 1) 0 1).flagged = false ∧
    btnColor (reveal exC9 0 1) 0 1 = mines_color ∧
    (set_flag (set_flag (reveal exC9 0 1) 0 1) 0 1).mines = (reveal exC9 0 1).mines ∧
    (getCell (set_flag (set_flag (reveal exC9 0 1) 0 1) 0 1) 0 1).flagged = false ∧
    btnColor (set_flag (set_flag (reveal exC9 0 1) 0 1) 0 1) 0 1 = button_color ∧
    btnColor (set_flag (set_flag (reveal exC9 0 1) 0 1) 0 1) 0 1 ≠
      btnColor (reveal exC9 0 1) 0 1 := by
  decide

/-- Claim C9 as amended: flagging then unflagging a Hidden cell is a
full no-op — flagged state, rendering, remaining-mines counter and its
label are all restored — *provided* the cell's prior rendering was the
standard hidden rendering (`flag_color` when flagged, `button_color`
when not) and the label matched the counter; the `mines_color` painted
on a detonated mine is repainted `button_color` by the round trip. -/
theorem C9_flag_roundtrip (s : GameState) (row col : Nat)
    (hwf : WF s) (hbwf : BWF s) (hr : row < s.height) (hc : col < s.width)
    (hrev : (getCell s row col).revealed = false)
    (hcol : btnColor s row col =
      (if (getCell s row col).flagged = true then flag_color else button_color))
    (hlabel : s.mines_label =
      (if 0 ≤ s.mines then "Bombs: " ++ toString s.mines else "Are you dumb?")) :
    set_flag (set_flag s row col) row col = s := by
  have hfl : row < s.field.length := by rw [hwf.1]; exact hr
  have hcl : col < (s.field[row]?.getD []).length := by rw [hwf.2 row hr]; exact hc
  have hbl : row < s.btn_colors.length := by rw [hbwf.1]; exact hr
  have hbc : col < (s.btn_colors[row]?.getD []).length := by rw [hbwf.2 row hr]; exact hc
  have hself := getCell_updateCell_self s row col
    (fun c => { c with flagged := !c.flagged }) hfl hcl
  cases horig : (getCell s row col).flagged with
  | false =>
    have e1 := set_flag_to_flagged s row col hfl hcl hrev horig
    have t1f : (set_flag s row col).field =
        (updateCell s row col (fun c => { c with flagged := !c.flagged })).field := by rw [e1]
    have t1b : (set_flag s row col).btn_colors =
        s.btn_colors.set row ((s.btn_colors[row]?.getD []).set col flag_color) := by rw [e1]
    have t1m : (set_flag s row col).mines = s.mines - 1 := by rw [e1]
    have t1w : (set_flag s row col).width = s.width := by rw [e1]; rfl
    have t1h : (set_flag s row col).height = s.height := by rw [e1]; rfl
    have t1ac : (set_flag s row col).all_cords = s.all_cords := by rw [e1]; rfl
    have t1dz : (set_flag s row col).def_zone = s.def_zone := by rw [e1]; rfl
    have t1dg : (set_flag s row col).danger_cords = s.danger_cords := by rw [e1]; rfl
    have t1pp : (set_flag s row col).popups = s.popups := by rw [e1]; rfl
    have t1rn : (set_flag s row col).running = s.running := by rw [e1]; rfl
    have t1te : (set_flag s row col).time_elapsed = s.time_elapsed := by rw [e1]; rfl
    have t1cd : (set_flag s row col).current_diff = s.current_diff := by rw [e1]; rfl
    have t1bt : (set_flag s row col).best_time = s.best_time := by rw [e1]; rfl
    have t1fc : (set_flag s row col).first_click = s.first_click := by rw [e1]; rfl
    have t1cell : getCell (set_flag s row col) row col =
        { getCell s row col with flagged := true } := by
      have hcg : getCell (set_flag s row col) row col =
          getCell (updateCell s row col (fun c => { c with flagged := !c.flagged })) row col := by
        unfold getCell; rw [t1f]
      rw [hcg, hself]
      simp [horig]
    have t1fl : row < (set_flag s row col).field.length := by
      rw [t1f]; simpa [updateCell] using hfl
    have t1cl : col < ((set_flag s row col).field[row]?.getD []).length := by
      rw [t1f]
      show col < ((s.field.set row _)[row]?.getD []).length
      rw [List.getElem?_set]
      simpa [hfl] using hcl
    have e2 := set_flag_to_unflagged (set_flag s row col) row col t1fl t1cl
      (by rw [t1cell]; exact hrev) (by rw [t1cell])
    rw [e2]
    have hcol' : btnColor s row col = button_color := by rw [hcol, horig]; rfl
    refine gameState_ext t1w t1h ?_ t1ac t1dz t1dg ?_ ?_ ?_ t1pp t1rn t1te t1cd t1bt t1fc
    · exact updateCell_toggle_twice s row col hfl hcl _ t1f
    · show (set_flag s row col).mines + 1 = s.mines
      rw [t1m]; omega
    · show (if 0 ≤ (set_flag s row col).mines + 1
            then "Bombs: " ++ toString ((set_flag s row col).mines + 1)
            else "Are you dumb?") = s.mines_label
      rw [t1m, show s.mines - 1 + 1 = s.mines from by omega]
      exact hlabel.symm
    · exact setColor_twice_restore s row col hbl hbc _ flag_color button_color t1b hcol'
  | true =>
    have e1 := set_flag_to_unflagged s row col hfl hcl hrev horig
    have t1f : (set_flag s row col).field =
        (updateCell s row col (fun c => { c with flagged := !c.flagged })).field := by rw [e1]
    have t1b : (set_flag s row col).btn_colors =
        s.btn_colors.set row ((s.btn_colors[row]?.getD []).set col button_color) := by rw [e1]
    have t1m : (set_flag s row col).mines = s.mines + 1 := by rw [e1]
    have t1w : (set_flag s row col).width = s.width := by rw [e1]; rfl
    have t1h : (set_flag s row col).height = s.height := by rw [e1]; rfl
    have t1ac : (set_flag s row col).all_cords = s.all_cords := by rw [e1]; rfl
    have t1dz : (set_flag s row col).def_zone = s.def_zone := by rw [e1]; rfl
    have t1dg : (set_flag s row col).danger_cords = s.danger_cords := by rw [e1]; rfl
    have t1pp : (set_flag s row col).popups = s.popups := by rw [e1]; rfl
    have t1rn : (set_flag s row col).running = s.running := by rw [e1]; rfl
    have t1te : (set_flag s row col).time_elapsed = s.time_elapsed := by rw [e1]; rfl
    have t1cd : (set_flag s row col).current_diff = s.current_diff := by rw [e1]; rfl
    have t1bt : (set_flag s row col).best_time = s.best_time := by rw [e1]; rfl
    have t1fc : (set_flag s row col).first_click = s.first_click := by rw [e1]; rfl
    have t1cell : getCell (set_flag s row col) row col =
        { getCell s row col with flagged := false } := by
      have hcg : getCell (set_flag s row col) row col =
          getCell (updateCell s row col (fun c => { c with flagged := !c.flagged })) row col := by
        unfold getCell; rw [t1f]
      rw [hcg, hself]
      simp [horig]
    have t1fl : row < (set_flag s row col).field.length := by
      rw [t1f]; simpa [updateCell] using hfl
    have t1cl : col < ((set_flag s row col).field[row]?.getD []).length := by
      rw [t1f]
      show col < ((s.field.set row _)[row]?.getD []).length
      rw [List.getElem?_set]
      simpa [hfl] using hcl
    have e2 := set_flag_to_flagged (set_flag s row col) row col t1fl t1cl
      (by rw [t1cell]; exact hrev) (by rw [t1cell])
    rw [e2]
    have hcol' : btnColor s row col = flag_color := by rw [hcol, horig]; rfl
    refine gameState_ext t1w t1h ?_ t1ac t1dz t1dg ?_ ?_ ?_ t1pp t1rn t1te t1cd t1bt t1fc
    · exact updateCell_toggle_twice s row col hfl hcl _ t1f
    · show (set_flag s row col).mines - 1 = s.mines
      rw [t1m]; omega
    · show (if 0 ≤ (set_flag s row col).mines - 1
            then "Bombs: " ++ toString ((set_flag s row col).mines - 1)
            else "Are you dumb?") = s.mines_label
      rw [t1m, show s.mines + 1 - 1 = s.mines from by omega]
      exact hlabel.symm
    · exact setColor_twice_restore s row col hbl hbc _ button_color flag_color t1b hcol'

theorem C9_witness :
    WF exC9 ∧ BWF exC9 ∧ (getCell exC9 0 0).revealed = false ∧
    set_flag (set_flag exC9 0 0) 0 0 = exC9 :=
  ⟨by decide, by decide, by decide,
    C9_flag_roundtrip exC9 0 0 (by decide) (by decide) (by decide) (by decide)
      (by decide) (by decide) (by decide)⟩

/-! ### Claim C10: no cell is both revealed and flagged -/

theorem set_flag_revealed_noop (s : GameState) (row col : Nat)
    (hrev : (getCell s row col).revealed = true) : set_flag s row col = s := by
  unfold set_flag
  simp [hrev]

theorem set_flag_field (s : GameState) (row col : Nat)
    (hrev : (getCell s row col).revealed = false) :
    (set_flag s row col).field =
      (updateCell s row col (fun c => { c with flagged := !c.flagged })).field := by
  unfold set_flag setColor
  rw [if_pos (by simp [hrev])]
  dsimp only
  split <;> rfl

theorem norf_updateCell (s : GameState) (row col : Nat) (f : Cell → Cell)
    (hf : ∀ x, (f x).revealed = x.revealed ∧ (f x).flagged = x.flagged)
    (h : NoRF s) : NoRF (updateCell s row col f) := by
  intro r c hrev
  rcases getCell_updateCell_cases s row col f r c with ⟨hr', hc', _, _, heq⟩ | heq
  · subst hr'; subst hc'
    rw [heq] at hrev ⊢
    rw [(hf _).1] at hrev
    rw [(hf _).2]
    exact h r c hrev
  · rw [heq] at hrev ⊢
    exact h r c hrev

theorem norf_set_flag (s : GameState) (row col : Nat) (h : NoRF s) :
    NoRF (set_flag s row col) := by
  cases hrev : (getCell s row col).revealed with
  | true => rw [set_flag_revealed_noop s row col hrev]; exact h
  | false =>
    intro r c hrc
    have hfield := set_flag_field s row col hrev
    have hget : ∀ r' c', getCell (set_flag s row col) r' c' =
        getCell (updateCell s row col (fun x => { x with flagged := !x.flagged })) r' c' := by
      intro r' c'; unfold getCell; rw [hfield]
    rw [hget] at hrc ⊢
    rcases getCell_updateCell_cases s row col (fun x => { x with flagged := !x.flagged }) r c
      with ⟨hr', hc', _, _, heq⟩ | heq
    · subst hr'; subst hc'
      rw [heq] at hrc
      simp only at hrc
      rw [hrev] at hrc
      cases hrc
    · rw [heq] at hrc ⊢
      exact h r c hrc

theorem getCell_calc_oob (s : GameState) (r c : Nat) (h : ¬(r < s.height ∧ c < s.width)) :
    getCell (calculate_neighbor_bombs s) r c = newCell := by
  unfold getCell calculate_neighbor_bombs
  dsimp only
  by_cases hr : r < s.height
  · have hc : ¬c < s.width := fun hh => h ⟨hr, hh⟩
    rw [List.getElem?_map, List.getElem?_range hr]
    simp only [Option.map_some', Option.getD_some]
    have : ((List.range s.width).map (fun col =>
        if (!(getCell s r col).bomb) = true then
          { getCell s r col with neighbor_bombs := calcCount s r col }
        else getCell s r col))[c]? = none := by
      rw [List.getElem?_eq_none_iff]
      simp; omega
    rw [this]
    rfl
  · have : ((List.range s.height).map (fun row => (List.range s.width).map (fun col =>
        if (!(getCell s row col).bomb) = true then
          { getCell s row col with neighbor_bombs := calcCount s row col }
        else getCell s row col)))[r]? = none := by
      rw [List.getElem?_eq_none_iff]
      simp; omega
    rw [this]
    rfl

theorem norf_calc (s : GameState) (h : NoRF s) : NoRF (calculate_neighbor_bombs s) := by
  intro r c hrev
  by_cases hb : r < s.height ∧ c < s.width
  · rw [getCell_calc s r c hb.1 hb.2] at hrev ⊢
    split at hrev
    · rename_i hcond
      rw [if_pos hcond]
      simp only at hrev ⊢
      exact h r c hrev
    · rename_i hcond
      rw [if_neg hcond]
      exact h r c hrev
  · rw [getCell_calc_oob s r c hb] at hrev
    cases hrev

theorem norf_safe_zone (s : GameState) (row col : Nat) (h : NoRF s) :
    NoRF (safe_zone s row col) := h

theorem norf_place_bombs (s : GameState) (bc : List Nat) (h : NoRF s) :
    NoRF (place_bombs s bc) := by
  unfold place_bombs
  dsimp only
  refine foldl_rec (P := NoRF) ?_ h
  intro t i _ ht
  exact norf_updateCell t _ _ _ (fun x => ⟨rfl, rfl⟩) ht

/-- Claim C10: every operation — reveal, flag toggle, chording, and the
first-click handler with its auto-reveal of the safe zone — preserves
the invariant that no cell is simultaneously Revealed and Flagged. -/
theorem C10_norf_invariant (s : GameState) (sample : List Nat) (row col : Nat)
    (h : NoRF s) :
    NoRF (reveal s row col) ∧ NoRF (set_flag s row col) ∧
    NoRF (try_chord s row col) ∧ NoRF (on_click s sample row col) := by
  refine ⟨(tame_revealF _ s row col).norf h, norf_set_flag s row col h,
          (tame_try_chordF _ s row col).norf h, ?_⟩
  unfold on_click
  split
  · dsimp only
    refine foldl_rec (P := NoRF) ?_ ?_
    · intro t p _ ht
      dsimp only
      split
      · exact (tame_revealF _ t _ _).norf ht
      · exact ht
    · have h0 : NoRF (safe_zone s row col) := norf_safe_zone s row col h
      have h1 : NoRF { safe_zone s row col with first_click := false } :=
        fun r c hrev => h0 r c hrev
      have h2 := norf_place_bombs _ sample h1
      have h3 := norf_calc _ h2
      split
      · intro r c hrev
        exact h3 r c hrev
      · exact h3
  · exact (tame_revealF _ s row col).norf h

theorem NoRF_of_cells (s : GameState)
    (h : ∀ r, r < s.field.length → ∀ c, c < (s.field[r]?.getD []).length →
      (getCell s r c).revealed = true → (getCell s r c).flagged = false) : NoRF s := by
  intro r c hrev
  by_cases hr : r < s.field.length
  · by_cases hc : c < (s.field[r]?.getD []).length
    · exact h r hr c hc hrev
    · exfalso
      have : (s.field[r]?.getD [])[c]? = none := by
        rw [List.getElem?_eq_none_iff]; omega
      unfold getCell at hrev
      rw [this] at hrev
      cases hrev
  · exfalso
    have : s.field[r]? = none := by
      rw [List.getElem?_eq_none_iff]; omega
    unfold getCell at hrev
    rw [this] at hrev
    cases hrev

theorem C10_witness :
    NoRF exC9 ∧ NoRF (reveal exC9 0 1) ∧ NoRF (set_flag exC9 0 0) :=
  ⟨NoRF_of_cells exC9 (by decide),
   (C10_norf_invariant exC9 [] 0 1 (NoRF_of_cells exC9 (by decide))).1,
   (C10_norf_invariant exC9 [] 0 0 (NoRF_of_cells exC9 (by decide))).2.1⟩

/-! ### Claim C1: first-click mine placement -/

theorem foldl_setBombs_getCell (W H : Nat) : ∀ (bc : List Nat) (s : GameState),
    s.width = W → s.height = H → WF s →
    ∀ r c, r < H → c < W →
    getCell (bc.foldl (fun t i => updateCell t (i / t.width) (i % t.width)
        (fun x => { x with bomb := true })) s) r c =
      (if r * W + c ∈ bc then { getCell s r c with bomb := true } else getCell s r c) := by
  intro bc
  induction bc with
  | nil =>
    intro s hw hh hwf r c hr hc
    simp
  | cons i l ih =>
    intro s hw hh hwf r c hr hc
    simp only [List.foldl_cons]
    rw [ih (updateCell s (i / s.width) (i % s.width) (fun x => { x with bomb := true }))
        hw hh (WF_updateCell s _ _ _ hwf) r c hr hc]
    by_cases hi : r * W + c = i
    · have hdiv : i / W = r := by
        rw [← hi, Nat.add_comm, Nat.add_mul_div_right _ _ (by omega : 0 < W),
          Nat.div_eq_of_lt hc]
        omega
      have hmod : i % W = c := by
        rw [← hi, Nat.add_comm, Nat.add_mul_mod_self_right, Nat.mod_eq_of_lt hc]
      have hsame : getCell (updateCell s (i / s.width) (i % s.width)
          (fun x => { x with bomb := true })) r c = { getCell s r c with bomb := true } := by
        have hdiv' : i / s.width = r := by rw [hw]; exact hdiv
        have hmod' : i % s.width = c := by rw [hw]; exact hmod
        rw [hdiv', hmod']
        have h1 : r < s.field.length := by rw [hwf.1, hh]; exact hr
        have h2 : c < (s.field[r]?.getD []).length := by
          rw [hwf.2 r (by rw [hh]; exact hr), hw]
          exact hc
        exact getCell_updateCell_self s r c _ h1 h2
      rw [hsame]
      have hmem : r * W + c ∈ i :: l := by rw [hi]; exact List.mem_cons_self i l
      rw [if_pos hmem]
      by_cases hl : r * W + c ∈ l
      · rw [if_pos hl]
      · rw [if_neg hl]
    · have hne : ¬(r = i / s.width ∧ c = i % s.width) := by
        rintro ⟨h1, h2⟩
        apply hi
        rw [h1, h2, hw]
        exact Nat.div_add_mod' i W
      rw [getCell_updateCell_ne s _ _ _ hne]
      have hmemi : (r * W + c ∈ i :: l) ↔ (r * W + c ∈ l) := by
        simp [List.mem_cons, hi]
      by_cases hl : r * W + c ∈ l
      · rw [if_pos hl, if_pos (hmemi.mpr hl)]
      · rw [if_neg hl, if_neg (fun hmem => hl (hmemi.mp hmem))]

theorem place_bombs_width (s : GameState) (bc : List Nat) :
    (place_bombs s bc).width = s.width := by
  unfold place_bombs
  dsimp only
  refine foldl_rec (P := fun (t : GameState) => t.width = s.width) ?_ rfl
  intro t i _ ht
  exact ht

theorem place_bombs_height (s : GameState) (bc : List Nat) :
    (place_bombs s bc).height = s.height := by
  unfold place_bombs
  dsimp only
  refine foldl_rec (P := fun (t : GameState) => t.height = s.height) ?_ rfl
  intro t i _ ht
  exact ht

theorem place_bombs_danger (s : GameState) (bc : List Nat) :
    (place_bombs s bc).danger_cords =
      (List.range (s.height * s.width)).filter (fun i => !s.def_zone.contains i) := by
  unfold place_bombs
  dsimp only
  refine foldl_rec (P := fun (t : GameState) => t.danger_cords =
    (List.range (s.height * s.width)).filter (fun i => !s.def_zone.contains i)) ?_ rfl
  intro t i _ ht
  exact ht

theorem place_bombs_getCell (s : GameState) (bc : List Nat) (hwf : WF s)
    (r c : Nat) (hr : r < s.height) (hc : c < s.width) :
    getCell (place_bombs s bc) r c =
      (if r * s.width + c ∈ bc then { getCell s r c with bomb := true }
       else getCell s r c) := by
  unfold place_bombs
  dsimp only
  exact foldl_setBombs_getCell s.width s.height bc
    { s with
      danger_cords := List.filter (fun i => !s.def_zone.contains i)
        (List.range (s.height * s.width)),
      all_cords := List.filter (fun i => !bc.contains i)
        (List.range (s.height * s.width)) }
    rfl rfl ⟨hwf.1, hwf.2⟩ r c hr hc

theorem WF_initialState (W H M : Nat) : WF (initialState W H M) := by
  constructor
  · simp [initialState]
  · intro r hr
    simp only [initialState] at hr ⊢
    rw [List.getElem?_replicate]
    simp [hr]

theorem getCell_initialState (W H M r c : Nat) :
    getCell (initialState W H M) r c = newCell := by
  unfold getCell initialState
  dsimp only
  rw [List.getElem?_replicate]
  by_cases hr : r < H
  · rw [if_pos hr]
    simp only [Option.getD_some]
    rw [List.getElem?_replicate]
    by_cases hc : c < W
    · simp [hc]
    · simp [hc]
  · simp [hr]

/-- Claim C1: for any grid `W × H`, mine count `M` with `M < W·H·0.8 − 9`
(rendered exactly as `5M + 45 < 4·W·H`), and any in-bounds first click,
after `safe_zone` and `place_bombs` (for every possible outcome of
`random.sample`, i.e. every duplicate-free length-`M` list drawn from
`danger_cords`): the clicked cell and all of its in-bounds 8-neighbors
are mine-free, and exactly `M` cells of the field hold a mine. -/
theorem C1_first_click_placement (W H M row col : Nat) (sample : List Nat)
    (hrow : row < H) (hcol : col < W)
    (hM : 5 * M + 45 < 4 * (W * H))
    (hnodup : sample.Nodup) (hlen : sample.length = M)
    (hmem : ∀ i ∈ sample,
      i ∈ (place_bombs (safe_zone (initialState W H M) row col) sample).danger_cords) :
    (∀ p ∈ offsets9,
      0 ≤ (col : Int) + p.1 → (col : Int) + p.1 < (W : Int) →
      0 ≤ (row : Int) + p.2 → (row : Int) + p.2 < (H : Int) →
      (getCell (place_bombs (safe_zone (initialState W H M) row col) sample)
        ((row : Int) + p.2).toNat ((col : Int) + p.1).toNat).bomb = false) ∧
    bombCount (place_bombs (safe_zone (initialState W H M) row col) sample) = M := by
  have hWpos : 0 < W := by omega
  have hwf1 : WF (safe_zone (initialState W H M) row col) :=
    ⟨(WF_initialState W H M).1, (WF_initialState W H M).2⟩
  have hcell1 : ∀ r c, getCell (safe_zone (initialState W H M) row col) r c = newCell :=
    fun r c => getCell_initialState W H M r c
  have hdz1 : (safe_zone (initialState W H M) row col).def_zone =
      offsets9.filterMap (fun p =>
        if 0 ≤ (col : Int) + p.1 ∧ (col : Int) + p.1 < (W : Int) ∧
           0 ≤ (row : Int) + p.2 ∧ (row : Int) + p.2 < (H : Int) then
          some (((row : Int) + p.2).toNat * W + ((col : Int) + p.1).toNat)
        else none) :=
    List.nil_append _
  have hmem' : ∀ i ∈ sample, i < H * W ∧
      i ∉ (safe_zone (initialState W H M) row col).def_zone := by
    intro i hi
    have h := hmem i hi
    rw [place_bombs_danger] at h
    rw [List.mem_filter, List.mem_range] at h
    refine ⟨h.1, fun hdz => ?_⟩
    have h2 := h.2
    simp only [List.elem_eq_true_of_mem hdz, Bool.not_true] at h2
    cases h2
  have key : ∀ (r c : Nat), c < W → (r * W + c) / W = r ∧ (r * W + c) % W = c := by
    intro r c hc
    constructor
    · rw [Nat.add_comm, Nat.add_mul_div_right _ _ hWpos, Nat.div_eq_of_lt hc]
      omega
    · rw [Nat.add_comm, Nat.add_mul_mod_self_right, Nat.mod_eq_of_lt hc]
  constructor
  · intro p hp h1 h2 h3 h4
    have hr' : ((row : Int) + p.2).toNat < H := by omega
    have hc' : ((col : Int) + p.1).toNat < W := by omega
    rw [place_bombs_getCell _ sample hwf1 _ _ hr' hc']
    rw [show (safe_zone (initialState W H M) row col).width = W from rfl]
    have hnotin : ¬(((row : Int) + p.2).toNat * W + ((col : Int) + p.1).toNat ∈ sample) := by
      intro hin
      have hzone : ((row : Int) + p.2).toNat * W + ((col : Int) + p.1).toNat ∈
          (safe_zone (initialState W H M) row col).def_zone := by
        rw [hdz1, List.mem_filterMap]
        exact ⟨p, hp, by rw [if_pos ⟨h1, h2, h3, h4⟩]⟩
      exact (hmem' _ hin).2 hzone
    rw [if_neg hnotin, hcell1]
    rfl
  · have hpoint : ∀ r c, r < H → c < W →
        ((getCell (place_bombs (safe_zone (initialState W H M) row col) sample) r c).bomb
          = true ↔ r * W + c ∈ sample) := by
      intro r c hr hc
      rw [place_bombs_getCell _ sample hwf1 r c hr hc]
      rw [show (safe_zone (initialState W H M) row col).width = W from rfl]
      by_cases h : r * W + c ∈ sample
      · rw [if_pos h]
        simp [h]
      · rw [if_neg h]
        rw [hcell1]
        simp [newCell, h]
    unfold bombCount
    rw [place_bombs_height, place_bombs_width,
      show (safe_zone (initialState W H M) row col).height = H from rfl,
      show (safe_zone (initialState W H M) row col).width = W from rfl]
    have hfc : ((Finset.range H ×ˢ Finset.range W).filter
          (fun rc => (getCell (place_bombs (safe_zone (initialState W H M) row col) sample)
            rc.1 rc.2).bomb = true)) =
        ((Finset.range H ×ˢ Finset.range W).filter
          (fun rc => rc.1 * W + rc.2 ∈ sample)) := by
      apply Finset.filter_congr
      intro rc hrc
      rw [Finset.mem_product, Finset.mem_range, Finset.mem_range] at hrc
      simp only [hpoint rc.1 rc.2 hrc.1 hrc.2]
    rw [hfc]
    have hcard : ((Finset.range H ×ˢ Finset.range W).filter
        (fun rc => rc.1 * W + rc.2 ∈ sample)).card = sample.toFinset.card := by
      refine Finset.card_bij (fun rc _ => rc.1 * W + rc.2) ?_ ?_ ?_
      · intro a ha
        rw [Finset.mem_filter] at ha
        rw [List.mem_toFinset]
        exact ha.2
      · intro a1 ha1 a2 ha2 heq
        dsimp only at heq
        rw [Finset.mem_filter, Finset.mem_product, Finset.mem_range, Finset.mem_range] at ha1 ha2
        have k1 := key a1.1 a1.2 ha1.1.2
        have k2 := key a2.1 a2.2 ha2.1.2
        have e1 : a1.1 = a2.1 := by rw [← k1.1, ← k2.1, heq]
        have e2 : a1.2 = a2.2 := by rw [← k1.2, ← k2.2, heq]
        exact Prod.ext e1 e2
      · intro b hb
        rw [List.mem_toFinset] at hb
        have hblt : b < H * W := (hmem' b hb).1
        refine ⟨(b / W, b % W), ?_, ?_⟩
        · rw [Finset.mem_filter, Finset.mem_product, Finset.mem_range, Finset.mem_range]
          refine ⟨⟨?_, Nat.mod_lt _ hWpos⟩, ?_⟩
          · rw [Nat.div_lt_iff_lt_mul hWpos]
            omega
          · simp only
            rw [Nat.div_add_mod' b W]
            exact hb
        · simp only
          rw [Nat.div_add_mod' b W]
    rw [hcard]
    rw [List.toFinset_card_of_nodup hnodup]
    exact hlen

set_option maxRecDepth 8000 in
theorem C1_witness :
    (4 < 9) ∧ (5 * 10 + 45 < 4 * (9 * 9)) ∧
    bombCount (place_bombs (safe_zone (initialState 9 9 10) 4 4)
      [0, 1, 2, 3, 4, 5, 6, 7, 8, 9]) = 10 :=
  ⟨by decide, by decide,
   (C1_first_click_placement 9 9 10 4 4 [0, 1, 2, 3, 4, 5, 6, 7, 8, 9]
      (by decide) (by decide) (by decide) (by decide) (by decide) (by decide)).2⟩

/-! ### Claim C8: termination of the flood fill -/

theorem foldStep_eq (step1 step2 : GameState → Int × Int → GameState)
    (offs : List (Int × Int)) (P : GameState → Prop)
    (hstep : ∀ t p, p ∈ offs → P t → step1 t p = step2 t p ∧ P (step1 t p)) :
    ∀ t, P t → offs.foldl step1 t = offs.foldl step2 t := by
  induction offs with
  | nil => intro t _; rfl
  | cons p l ih =>
    intro t ht
    obtain ⟨he, hp⟩ := hstep t p (List.mem_cons_self _ _) ht
    rw [List.foldl_cons, List.foldl_cons, ← he]
    exact ih (fun t' p' hp' ht' => hstep t' p' (List.mem_cons_of_mem _ hp') ht') _ hp

theorem uc_foldl_floodStep_le (fuel row col : Nat) (offs : List (Int × Int))
    (t : GameState) : uc (offs.foldl (floodStep fuel row col) t) ≤ uc t := by
  refine foldl_rec (P := fun x => uc x ≤ uc t) ?_ le_rfl
  intro a p _ ha
  simp only [floodStep]
  split
  · exact le_trans (tame_revealF fuel a _ _).uc_le ha
  · exact ha

theorem revealF_fuel_eq_unrevealed : ∀ (n fuel1 fuel2 : Nat) (s : GameState) (row col : Nat),
    WF s → uc s ≤ n → row < s.height → col < s.width →
    (getCell s row col).revealed = false → n < fuel1 → n < fuel2 →
    revealF fuel1 s row col = revealF fuel2 s row col := by
  intro n
  induction n with
  | zero =>
    intro fuel1 fuel2 s row col hwf hn hr hc hrev h1 h2
    exfalso
    have hfl : row < s.field.length := by rw [hwf.1]; exact hr
    have hcl : col < (s.field[row]?.getD []).length := by rw [hwf.2 row hr]; exact hc
    have := uc_markRevealed_lt s row col hfl hcl hrev
    omega
  | succ m ih =>
    intro fuel1 fuel2 s row col hwf hn hr hc hrev h1 h2
    cases fuel1 with
    | zero => omega
    | succ f1 =>
      cases fuel2 with
      | zero => omega
      | succ f2 =>
        cases hf : (getCell s row col).flagged with
        | true =>
          rw [revealF_flagged (f1 + 1) s row col hrev hf,
              revealF_flagged (f2 + 1) s row col hrev hf]
        | false =>
          cases hb : (getCell s row col).bomb with
          | true =>
            rw [revealF_loss f1 s row col hb hrev hf, revealF_loss f2 s row col hb hrev hf]
          | false =>
            by_cases hz : (getCell s row col).neighbor_bombs = 0
            · rw [revealF_flood_zero f1 s row col hb hrev hf hz,
                  revealF_flood_zero f2 s row col hb hrev hf hz]
              have hfl : row < s.field.length := by rw [hwf.1]; exact hr
              have hcl : col < (s.field[row]?.getD []).length := by
                rw [hwf.2 row hr]; exact hc
              have hucm : uc (markRevealed s row col) ≤ m := by
                have := uc_markRevealed_lt s row col hfl hcl hrev
                omega
              refine foldStep_eq (floodStep f1 row col) (floodStep f2 row col) offsets9
                (fun t => WF t ∧ uc t ≤ m) ?_ (markRevealed s row col)
                ⟨(staticEq_markRevealed s row col).WF hwf, hucm⟩
              rintro t p _ ⟨hwt, hut⟩
              constructor
              · simp only [floodStep]
                by_cases hg : (decide (0 ≤ (col : Int) + p.1 ∧ (col : Int) + p.1 < (t.width : Int) ∧
                    0 ≤ (row : Int) + p.2 ∧ (row : Int) + p.2 < (t.height : Int)) &&
                    !(getCell t ((row : Int) + p.2).toNat ((col : Int) + p.1).toNat).revealed) = true
                · rw [if_pos hg, if_pos hg]
                  rw [Bool.and_eq_true, decide_eq_true_iff] at hg
                  obtain ⟨⟨g1, g2, g3, g4⟩, g5⟩ := hg
                  rw [Bool.not_eq_true'] at g5
                  exact ih f1 f2 t _ _ hwt hut (by omega) (by omega) g5 (by omega) (by omega)
                · rw [if_neg hg, if_neg hg]
              · simp only [floodStep]
                split
                · exact ⟨(tame_revealF f1 t _ _).st.WF hwt,
                    le_trans (tame_revealF f1 t _ _).uc_le hut⟩
                · exact ⟨hwt, hut⟩
            · rw [revealF_flood_pos f1 s row col hb hrev hf hz,
                  revealF_flood_pos f2 s row col hb hrev hf hz]

theorem revealF_fuel_eq (n fuel1 fuel2 : Nat) (s : GameState) (row col : Nat)
    (hwf : WF s) (hn : uc s ≤ n) (hr : row < s.height) (hc : col < s.width)
    (h1 : n + 1 < fuel1) (h2 : n + 1 < fuel2) :
    revealF fuel1 s row col = revealF fuel2 s row col := by
  cases hrev : (getCell s row col).revealed with
  | false =>
    exact revealF_fuel_eq_unrevealed n fuel1 fuel2 s row col hwf hn hr hc hrev
      (by omega) (by omega)
  | true =>
    cases fuel1 with
    | zero => omega
    | succ f1 =>
      cases fuel2 with
      | zero => omega
      | succ f2 =>
        rw [revealF_revealed f1 s row col hrev, revealF_revealed f2 s row col hrev]
        by_cases hm : flaggedCount s row col = (getCell s row col).neighbor_bombs
        · rw [try_chordF_match f1 s row col hrev hm, try_chordF_match f2 s row col hrev hm]
          refine foldStep_eq (chordStep f1 row col) (chordStep f2 row col) offsets9
            (fun t => WF t ∧ uc t ≤ n) ?_ s ⟨hwf, hn⟩
          rintro t p _ ⟨hwt, hut⟩
          constructor
          · simp only [chordStep]
            by_cases hg : (decide (0 ≤ (row : Int) + p.1 ∧ (row : Int) + p.1 < (t.height : Int) ∧
                0 ≤ (col : Int) + p.2 ∧ (col : Int) + p.2 < (t.width : Int)) &&
                !(getCell t ((row : Int) + p.1).toNat ((col : Int) + p.2).toNat).revealed &&
                !(getCell t ((row : Int) + p.1).toNat ((col : Int) + p.2).toNat).flagged) = true
            · rw [if_pos hg, if_pos hg]
              rw [Bool.and_eq_true, Bool.and_eq_true, decide_eq_true_iff] at hg
              obtain ⟨⟨⟨g1, g2, g3, g4⟩, g5⟩, g6⟩ := hg
              rw [Bool.not_eq_true'] at g5
              exact revealF_fuel_eq_unrevealed n f1 f2 t _ _ hwt hut (by omega) (by omega) g5
                (by omega) (by omega)
            · rw [if_neg hg, if_neg hg]
          · simp only [chordStep]
            split
            · exact ⟨(tame_revealF f1 t _ _).st.WF hwt,
                le_trans (tame_revealF f1 t _ _).uc_le hut⟩
            · exact ⟨hwt, hut⟩
        · rw [try_chordF_mismatch f1 s row col hm, try_chordF_mismatch f2 s row col hm]

/-- Claim C8: the recursive flood fill terminates.  Formally: running
`revealF` with any fuel of at least `uc s + 2` (two more than the number
of unrevealed cells) yields the same state as `reveal`, so the recursion
never exhausts its allowance; moreover cells are only ever revealed (the
unrevealed count never grows), and a reveal that actually opens a hidden
unflagged safe cell strictly decreases the unrevealed count. -/
theorem C8_flood_fill_terminates (s : GameState) (row col : Nat) (hwf : WF s)
    (hr : row < s.height) (hc : col < s.width) :
    (∀ fuel, uc s + 2 ≤ fuel → revealF fuel s row col = reveal s row col) ∧
    (∀ r c, (getCell s r c).revealed = true →
      (getCell (reveal s row col) r c).revealed = true) ∧
    uc (reveal s row col) ≤ uc s ∧
    ((getCell s row col).revealed = false → (getCell s row col).flagged = false →
      (getCell s row col).bomb = false → uc (reveal s row col) < uc s) := by
  refine ⟨?_, (tame_revealF _ s row col).mono, (tame_revealF _ s row col).uc_le, ?_⟩
  · intro fuel hfuel
    exact revealF_fuel_eq (uc s) fuel (uc s + 2) s row col hwf le_rfl hr hc
      (by omega) (by omega)
  · intro hrev hf hb
    have hfl : row < s.field.length := by rw [hwf.1]; exact hr
    have hcl : col < (s.field[row]?.getD []).length := by rw [hwf.2 row hr]; exact hc
    have hlt := uc_markRevealed_lt s row col hfl hcl hrev
    unfold reveal
    by_cases hz : (getCell s row col).neighbor_bombs = 0
    · rw [revealF_flood_zero (uc s + 1) s row col hb hrev hf hz]
      have := uc_foldl_floodStep_le (uc s + 1) row col offsets9 (markRevealed s row col)
      omega
    · rw [revealF_flood_pos (uc s + 1) s row col hb hrev hf hz]
      omega

theorem C8_witness :
    WF exC9 ∧ uc exC9 + 2 ≤ 10 ∧ revealF 10 exC9 0 0 = reveal exC9 0 0 :=
  ⟨by decide, by decide,
   (C8_flood_fill_terminates exC9 0 0 (by decide) (by decide) (by decide)).1 10 (by decide)⟩

/-! ### Transport along static equality, and popup bookkeeping -/

theorem staticEq_bomb {t s : GameState} (h : StaticEq t s) (r c : Nat) :
    (getCell t r c).bomb = (getCell s r c).bomb := cellStatic_bomb (h.cell r c)

theorem staticEq_flag {t s : GameState} (h : StaticEq t s) (r c : Nat) :
    (getCell t r c).flagged = (getCell s r c).flagged := cellStatic_flagged (h.cell r c)

theorem staticEq_nb {t s : GameState} (h : StaticEq t s) (r c : Nat) :
    (getCell t r c).neighbor_bombs = (getCell s r c).neighbor_bombs :=
  cellStatic_nb (h.cell r c)

theorem neighborMines_congr {t s : GameState} (hst : StaticEq t s) (r c : Nat) :
    neighborMines t r c = neighborMines s r c := by
  unfold neighborMines
  congr 1
  apply List.filter_congr
  intro o _
  simp only [hst.w, hst.h, staticEq_bomb hst]

theorem consistent_transport {t s : GameState} (hst : StaticEq t s) (hcons : Consistent s) :
    Consistent t := by
  intro r hr c hc hb
  rw [hst.h] at hr
  rw [hst.w] at hc
  rw [staticEq_nb hst, neighborMines_congr hst r c]
  exact hcons r hr c hc (by rw [← staticEq_bomb hst]; exact hb)

theorem zeroCell_transport {t s : GameState} (hst : StaticEq t s) {p : Nat × Nat}
    (h : ZeroCell t p) : ZeroCell s p := by
  obtain ⟨h1, h2, h3, h4, h5⟩ := h
  refine ⟨by rw [← hst.h]; exact h1, by rw [← hst.w]; exact h2, ?_, ?_, ?_⟩
  · rw [← staticEq_bomb hst]; exact h3
  · rw [← staticEq_flag hst]; exact h4
  · rw [← staticEq_nb hst]; exact h5

theorem zreach_transport {t s : GameState} (hst : StaticEq t s) {a b : Nat × Nat}
    (h : ZReach t a b) : ZReach s a b := by
  induction h with
  | refl => exact ZReach.refl
  | tail hp hz hadj hh hw hf ih =>
    exact ZReach.tail ih (zeroCell_transport hst hz) hadj (by rw [← hst.h]; exact hh)
      (by rw [← hst.w]; exact hw) (by rw [← staticEq_flag hst]; exact hf)

theorem zreach_absorb {s : GameState} {a b d : Nat × Nat}
    (h1 : ZReach s a b) (h2 : ZReach s b d) : ZReach s a d := by
  induction h2 with
  | refl => exact h1
  | tail hp hz hadj hh hw hf ih => exact ZReach.tail ih hz hadj hh hw hf

/-- A bomb's `revealed` field survives any tame transformation (only
non-mine cells are ever newly revealed). -/
theorem tame_bomb_revealed {t s : GameState} (h : Tame t s) (r c : Nat)
    (hb : (getCell s r c).bomb = true) :
    (getCell t r c).revealed = (getCell s r c).revealed := by
  cases hrv : (getCell s r c).revealed with
  | true => exact h.mono r c hrv
  | false =>
    cases hrt : (getCell t r c).revealed with
    | false => rfl
    | true =>
      have := (h.fresh r c hrt hrv).1
      rw [this] at hb
      cases hb

theorem bestAfter_eq (s : GameState) : bestAfter s =
    if s.current_diff ≠ "custom" ∧ s.time_elapsed < s.best_time
    then s.time_elapsed else s.best_time := by
  unfold bestAfter check_best
  split <;> rfl

theorem popsSpec_refl (s : GameState) : PopsSpec s s False := by
  refine ⟨[], (List.append_nil _).symm, ?_, by simp, fun _ => ⟨rfl, rfl⟩,
    fun h => absurd rfl h, fun h => by simp at h, fun _ => rfl⟩
  simp

theorem popsSpec_congr {s T : GameState} {B B' : Prop} (h : PopsSpec s T B)
    (hiff : B ↔ B') : PopsSpec s T B' := by
  obtain ⟨ext, h1, h2, h3, h4, h5, h6, h7⟩ := h
  exact ⟨ext, h1, h2, h3.trans hiff, h4, h5, h6, h7⟩

theorem popsSpec_comp {s t u : GameState} {B1 B2 : Prop}
    (h1 : PopsSpec s t B1) (h2 : PopsSpec t u B2)
    (hsub : ∀ i, i ∈ u.all_cords → i ∈ t.all_cords)
    (hsub2 : ∀ i, i ∈ t.all_cords → i ∈ s.all_cords)
    (hte : t.time_elapsed = s.time_elapsed)
    (hdiff : t.current_diff = s.current_diff) :
    PopsSpec s u (B1 ∨ B2) := by
  obtain ⟨e1, p1, tw1, fl1, em1, ne1, bw1, bn1⟩ := h1
  obtain ⟨e2, p2, tw2, fl2, em2, ne2, bw2, bn2⟩ := h2
  refine ⟨e1 ++ e2, by rw [p2, p1, List.append_assoc], ?_, ?_, ?_, ?_, ?_, ?_⟩
  · constructor
    · intro h
      rcases List.mem_append.1 h with h | h
      · obtain ⟨ht, hs⟩ := tw1.1 h
        refine ⟨List.eq_nil_iff_forall_not_mem.2 (fun x hx => ?_), hs⟩
        have := hsub x hx
        rw [ht] at this
        simp at this
      · obtain ⟨hu, htne⟩ := tw2.1 h
        refine ⟨hu, fun hs => htne (List.eq_nil_iff_forall_not_mem.2 (fun x hx => ?_))⟩
        have := hsub2 x hx
        rw [hs] at this
        simp at this
    · rintro ⟨hu, hs⟩
      by_cases ht : t.all_cords = []
      · exact List.mem_append.2 (Or.inl (tw1.2 ⟨ht, hs⟩))
      · exact List.mem_append.2 (Or.inr (tw2.2 ⟨hu, ht⟩))
  · rw [List.mem_append, fl1, fl2]
  · intro h
    have he1 : e1 = [] := (List.append_eq_nil.1 h).1
    have he2 : e2 = [] := (List.append_eq_nil.1 h).2
    exact ⟨(em2 he2).1.trans (em1 he1).1, (em2 he2).2.trans (em1 he1).2⟩
  · intro h
    by_cases he2 : e2 = []
    · have he1 : e1 ≠ [] := by
        intro he1
        exact h (by rw [he1, he2]; rfl)
      rw [(em2 he2).1]
      exact ne1 he1
    · exact ne2 he2
  · intro h
    rcases List.mem_append.1 h with hm | hm
    · by_cases h2m : true ∈ e2
      · obtain ⟨ht, _⟩ := tw1.1 hm
        obtain ⟨_, htne⟩ := tw2.1 h2m
        exact absurd ht htne
      · rw [bn2 h2m]
        exact bw1 hm
    · have htne := (tw2.1 hm).2
      have h1m : true ∉ e1 := fun hx => htne ((tw1.1 hx).1)
      have hbt : t.best_time = s.best_time := bn1 h1m
      rw [bw2 hm, bestAfter_eq, bestAfter_eq, hdiff, hte, hbt]
  · intro h
    have hm1 : true ∉ e1 := fun hx => h (List.mem_append.2 (Or.inl hx))
    have hm2 : true ∉ e2 := fun hx => h (List.mem_append.2 (Or.inr hx))
    rw [bn2 hm2, bn1 hm1]

/-! ### Linear coordinates -/

theorem lin_lt (W H row col : Nat) (hrow : row < H) (hcol : col < W) :
    row * W + col < H * W := by
  have h1 : row * W + col < (row + 1) * W := by
    rw [Nat.add_mul, Nat.one_mul]
    omega
  have h2 : (row + 1) * W ≤ H * W := Nat.mul_le_mul_right W hrow
  omega

theorem lin_div (W row col : Nat) (hcol : col < W) : (row * W + col) / W = row := by
  have hW : 0 < W := Nat.lt_of_le_of_lt (Nat.zero_le col) hcol
  rw [Nat.add_comm (row * W) col, Nat.add_mul_div_right col row hW, Nat.div_eq_of_lt hcol]
  omega

theorem lin_mod (W row col : Nat) (hcol : col < W) : (row * W + col) % W = col := by
  rw [Nat.add_comm (row * W) col, Nat.add_mul_mod_self_right]
  exact Nat.mod_eq_of_lt hcol

theorem lin_eq_iff (W row col i : Nat) (hcol : col < W) :
    (i / W = row ∧ i % W = col) ↔ i = row * W + col := by
  constructor
  · rintro ⟨h1, h2⟩
    rw [← h1, ← h2]
    exact (Nat.div_add_mod' i W).symm
  · intro h
    subst h
    exact ⟨lin_div W row col hcol, lin_mod W row col hcol⟩

/-! ### `markRevealed` preserves the `all_cords` invariant -/

theorem invCords_markRevealed (s : GameState) (row col : Nat)
    (hwf : WF s) (hinv : InvCords s) (hr : row < s.height) (hc : col < s.width) :
    InvCords (markRevealed s row col) := by
  have hst := staticEq_markRevealed s row col
  have hA := markRevealed_all_cords s row col
  refine ⟨?_, ?_, ?_⟩
  · rw [hA]
    exact hinv.1.erase _
  · intro i hi
    rw [hA] at hi
    rw [hst.h, hst.w]
    exact hinv.2.1 i (List.mem_of_mem_erase hi)
  · intro i hi
    rw [hst.h, hst.w] at hi
    have hiw := hinv.2.2 i hi
    rw [hA, hst.w]
    have hmem : i ∈ s.all_cords.erase (row * s.width + col) ↔
        i ≠ row * s.width + col ∧ i ∈ s.all_cords := List.Nodup.mem_erase_iff hinv.1
    by_cases hlin : i = row * s.width + col
    · subst hlin
      have hdiv := lin_div s.width row col hc
      have hmodd := lin_mod s.width row col hc
      rw [hdiv, hmodd]
      have hself : (getCell (markRevealed s row col) row col).revealed = true := by
        rw [getCell_markRevealed,
          getCell_updateCell_self s row col _ (by rw [hwf.1]; exact hr)
            (by rw [hwf.2 row hr]; exact hc)]
      constructor
      · intro hmem2
        exact absurd hmem2 (hinv.1.not_mem_erase)
      · rintro ⟨_, h2⟩
        rw [hself] at h2
        cases h2
    · have hcell : getCell (markRevealed s row col) (i / s.width) (i % s.width) =
          getCell s (i / s.width) (i % s.width) := by
        rw [getCell_markRevealed]
        rcases getCell_updateCell_cases s row col (fun x => { x with revealed := true })
          (i / s.width) (i % s.width) with ⟨h1, h2, _, _, _⟩ | heq
        · exact absurd ((lin_eq_iff s.width row col i hc).1 ⟨h1, h2⟩) hlin
        · exact heq
      rw [hcell, hmem]
      constructor
      · rintro ⟨_, h2⟩
        exact hiw.1 h2
      · intro h
        exact ⟨hlin, hiw.2 h⟩

/-- The linear coordinate of a hidden non-mine cell is outstanding. -/
theorem lin_mem_all_cords (s : GameState) (row col : Nat)
    (hinv : InvCords s) (hr : row < s.height) (hc : col < s.width)
    (hb : (getCell s row col).bomb = false) (hrev : (getCell s row col).revealed = false) :
    row * s.width + col ∈ s.all_cords := by
  have hlt := lin_lt s.width s.height row col hr hc
  refine (hinv.2.2 _ hlt).2 ⟨?_, ?_⟩
  · rw [lin_div s.width row col hc, lin_mod s.width row col hc]
    exact hb
  · rw [lin_div s.width row col hc, lin_mod s.width row col hc]
    exact hrev

theorem popsSpec_markRevealed (s : GameState) (row col : Nat)
    (hwf : WF s) (hinv : InvCords s) (hr : row < s.height) (hc : col < s.width)
    (hb : (getCell s row col).bomb = false) (hrev : (getCell s row col).revealed = false) :
    PopsSpec s (markRevealed s row col) False := by
  have hmem := lin_mem_all_cords s row col hinv hr hc hb hrev
  have hsne : s.all_cords ≠ [] := by
    intro h
    rw [h] at hmem
    simp at hmem
  by_cases he : eraseEmpty s row col
  · refine ⟨[true], ?_, ?_, by simp, ?_, ?_, ?_, ?_⟩
    · rw [markRevealed_popups, if_pos he]
    · simp only [List.mem_singleton]
      constructor
      · intro _
        exact ⟨by rw [markRevealed_all_cords]; exact he, hsne⟩
      · intro _
        trivial
    · intro h
      simp at h
    · intro _
      rw [markRevealed_running, if_pos he]
    · intro _
      rw [markRevealed_best_time, bestAfter_eq]
      by_cases hx : s.current_diff ≠ "custom" ∧ s.time_elapsed < s.best_time
      · rw [if_pos ⟨he, hx⟩, if_pos hx]
      · rw [if_neg (fun h => hx h.2), if_neg hx]
    · intro h
      exact absurd (List.mem_singleton.2 rfl) h
  · refine ⟨[], ?_, ?_, by simp, fun _ => ⟨?_, ?_⟩, fun h => absurd rfl h,
      fun h => by simp at h, ?_⟩
    · rw [markRevealed_popups, if_neg he, List.append_nil]
    · constructor
      · intro h
        simp at h
      · rintro ⟨h1, _⟩
        rw [markRevealed_all_cords] at h1
        exact absurd h1 he
    · rw [markRevealed_running, if_neg he]
    · rw [markRevealed_best_time, if_neg (fun h => he h.1)]
    · intro _
      rw [markRevealed_best_time, if_neg (fun h => he h.1)]

theorem markRevealed_new_only (s : GameState) (row col r c : Nat)
    (h1 : (getCell (markRevealed s row col) r c).revealed = true)
    (h2 : (getCell s r c).revealed = false) : r = row ∧ c = col := by
  rw [getCell_markRevealed] at h1
  rcases getCell_updateCell_cases s row col (fun x => { x with revealed := true }) r c with
    ⟨hr, hc, _, _, _⟩ | heq
  · exact ⟨hr, hc⟩
  · rw [heq] at h1
    rw [h1] at h2
    cases h2

theorem markRevealed_self (s : GameState) (row col : Nat) (hwf : WF s)
    (hr : row < s.height) (hc : col < s.width) :
    (getCell (markRevealed s row col) row col).revealed = true := by
  rw [getCell_markRevealed,
    getCell_updateCell_self s row col _ (by rw [hwf.1]; exact hr)
      (by rw [hwf.2 row hr]; exact hc)]

/-- A zero-count non-mine cell has no in-bounds mine neighbor (counting
the cell itself). -/
theorem consistent_no_bomb_nbrs (s : GameState) (row col : Nat) (hcons : Consistent s)
    (hr : row < s.height) (hc : col < s.width)
    (hb : (getCell s row col).bomb = false)
    (hz : (getCell s row col).neighbor_bombs = 0) :
    ∀ o ∈ offsets9, 0 ≤ (col : Int) + o.1 → (col : Int) + o.1 < (s.width : Int) →
      0 ≤ (row : Int) + o.2 → (row : Int) + o.2 < (s.height : Int) →
      (getCell s ((row : Int) + o.2).toNat ((col : Int) + o.1).toNat).bomb = false := by
  have hnm : neighborMines s row col = 0 := by
    rw [← hz]
    exact (hcons row hr col hc hb).symm
  have hnil : offsets8.filter (fun p =>
      decide (0 ≤ (row : Int) + p.1 ∧ (row : Int) + p.1 < (s.height : Int) ∧
              0 ≤ (col : Int) + p.2 ∧ (col : Int) + p.2 < (s.width : Int)) &&
      (getCell s ((row : Int) + p.1).toNat ((col : Int) + p.2).toNat).bomb) = [] :=
    List.length_eq_zero.1 hnm
  intro o ho hc1 hc2 hr1 hr2
  by_cases ho0 : o = (0, 0)
  · subst ho0
    simpa using hb
  · have hp8 : (o.2, o.1) ∈ offsets8 := by
      fin_cases ho
      · decide
      · decide
      · decide
      · decide
      · exact absurd rfl ho0
      · decide
      · decide
      · decide
      · decide
    cases hbomb : (getCell s ((row : Int) + o.2).toNat ((col : Int) + o.1).toNat).bomb with
    | false => rfl
    | true =>
      exfalso
      have hcond : (decide (0 ≤ (row : Int) + o.2 ∧ (row : Int) + o.2 < (s.height : Int) ∧
              0 ≤ (col : Int) + o.1 ∧ (col : Int) + o.1 < (s.width : Int)) &&
          (getCell s ((row : Int) + o.2).toNat ((col : Int) + o.1).toNat).bomb) = true := by
        rw [Bool.and_eq_true, decide_eq_true_eq]
        exact ⟨⟨hr1, hr2, hc1, hc2⟩, hbomb⟩
      have hmem : (o.2, o.1) ∈ offsets8.filter (fun p =>
          decide (0 ≤ (row : Int) + p.1 ∧ (row : Int) + p.1 < (s.height : Int) ∧
                  0 ≤ (col : Int) + p.2 ∧ (col : Int) + p.2 < (s.width : Int)) &&
          (getCell s ((row : Int) + p.1).toNat ((col : Int) + p.2).toNat).bomb) :=
        List.mem_filter.2 ⟨hp8, hcond⟩
      rw [hnil] at hmem
      simp at hmem

/-! ### The reveal-cascade contract: helpers -/

theorem revealOut_refl (s : GameState) (hinv : InvCords s) {B : Prop} (hB : ¬B)
    (post : Nat → Nat → Prop) : RevealOut s s B post :=
  { tame := Tame.rfl s, inv := hinv,
    pops := popsSpec_congr (popsSpec_refl s) ⟨fun h => h.elim, fun h => absurd h hB⟩,
    closed := fun _ _ h1 h2 => absurd h1 (by simp [h2]),
    sound := fun _ _ h => Or.inl h }

theorem revealOut_weaken {s T : GameState} {B B' : Prop} {post post2 : Nat → Nat → Prop}
    (h : RevealOut s T B post) (hB : B ↔ B') (hp : ∀ r c, post r c → post2 r c) :
    RevealOut s T B' post2 :=
  { tame := h.tame, inv := h.inv, pops := popsSpec_congr h.pops hB,
    closed := h.closed,
    sound := fun r c hr => (h.sound r c hr).imp id (hp r c) }

theorem tgtIn_transport {t s : GameState} (hst : StaticEq t s)
    (tgtR tgtC : Int × Int → Int) (o : Int × Int) :
    TgtIn t tgtR tgtC o ↔ TgtIn s tgtR tgtC o := by
  unfold TgtIn
  rw [hst.w, hst.h]

theorem tgtBomb_transport {t s : GameState} (h : Tame t s)
    (tgtR tgtC : Int × Int → Int) (o : Int × Int) :
    TgtBomb t tgtR tgtC o ↔ TgtBomb s tgtR tgtC o := by
  unfold TgtBomb
  rw [tgtIn_transport h.st, staticEq_bomb h.st, staticEq_flag h.st]
  constructor
  · rintro ⟨h1, h2, h3, h4⟩
    refine ⟨h1, h2, h3, ?_⟩
    rw [← tame_bomb_revealed h _ _ h2]
    exact h4
  · rintro ⟨h1, h2, h3, h4⟩
    refine ⟨h1, h2, h3, ?_⟩
    rw [tame_bomb_revealed h _ _ h2]
    exact h4

theorem tgtReach_transport {t s : GameState} (h : Tame t s)
    (tgtR tgtC : Int × Int → Int) (o : Int × Int) (r c : Nat) :
    TgtReach t tgtR tgtC o r c → TgtReach s tgtR tgtC o r c := by
  rintro ⟨h1, h2, h3⟩
  exact ⟨(tgtIn_transport h.st tgtR tgtC o).1 h1,
    by rw [← staticEq_flag h.st]; exact h2, zreach_transport h.st h3⟩

theorem zeroClosed_step {s0 t1 T : GameState} (h1 : Tame t1 s0)
    (hz1 : ZeroClosed s0 t1)
    (hmono : ∀ r c, (getCell t1 r c).revealed = true → (getCell T r c).revealed = true)
    (hz2 : ZeroClosed t1 T) : ZeroClosed s0 T := by
  intro r c hT hs0 hr hc hb hnb o ho hc1 hc2 hr1 hr2 hf
  cases hrv1 : (getCell t1 r c).revealed with
  | true =>
    exact hmono _ _ (hz1 r c hrv1 hs0 hr hc hb hnb o ho hc1 hc2 hr1 hr2 hf)
  | false =>
    refine hz2 r c hT hrv1 ?_ ?_ ?_ ?_ o ho hc1 ?_ hr1 ?_ ?_
    · rw [h1.st.h]; exact hr
    · rw [h1.st.w]; exact hc
    · rw [staticEq_bomb h1.st]; exact hb
    · rw [staticEq_nb h1.st]; exact hnb
    · rw [h1.st.w]; exact hc2
    · rw [h1.st.h]; exact hr2
    · rw [staticEq_flag h1.st]; exact hf

theorem floodStep_char (fuel : Nat) (row col : Nat) :
    ∀ o ∈ offsets9, StepChar fuel (floodStep fuel row col)
      (fun p => (row : Int) + p.2) (fun p => (col : Int) + p.1) o := by
  intro o _ t
  constructor
  · intro hnb
    simp only [floodStep]
    refine if_neg (fun hcond => ?_)
    rw [Bool.and_eq_true] at hcond
    exact hnb (of_decide_eq_true hcond.1)
  · intro hbnd
    constructor
    · intro hrev
      simp only [floodStep]
      refine if_neg (fun hcond => ?_)
      rw [Bool.and_eq_true] at hcond
      have h2 := hcond.2
      rw [hrev] at h2
      simp at h2
    · intro hrev
      left
      simp only [floodStep]
      refine if_pos ?_
      rw [Bool.and_eq_true]
      exact ⟨decide_eq_true hbnd, by rw [hrev]; rfl⟩

theorem chordStep_char (fuel : Nat) (row col : Nat) :
    ∀ o ∈ offsets9, StepChar fuel (chordStep fuel row col)
      (fun p => (row : Int) + p.1) (fun p => (col : Int) + p.2) o := by
  intro o _ t
  constructor
  · intro hnb
    simp only [chordStep]
    refine if_neg (fun hcond => ?_)
    rw [Bool.and_eq_true, Bool.and_eq_true] at hcond
    have h1 := of_decide_eq_true hcond.1.1
    exact hnb ⟨h1.2.2.1, h1.2.2.2, h1.1, h1.2.1⟩
  · intro hbnd
    constructor
    · intro hrev
      simp only [chordStep]
      refine if_neg (fun hcond => ?_)
      rw [Bool.and_eq_true, Bool.and_eq_true] at hcond
      have h2 := hcond.1.2
      rw [hrev] at h2
      simp at h2
    · intro hrev
      cases hfl : (getCell t ((row : Int) + o.1).toNat ((col : Int) + o.2).toNat).flagged with
      | true =>
        right
        refine ⟨?_, rfl⟩
        simp only [chordStep]
        refine if_neg (fun hcond => ?_)
        rw [Bool.and_eq_true] at hcond
        have h2 := hcond.2
        simp only [Bool.not_eq_true'] at h2
        rw [hfl] at h2
        cases h2
      | false =>
        left
        simp only [chordStep]
        refine if_pos ?_
        rw [Bool.and_eq_true, Bool.and_eq_true]
        refine ⟨⟨decide_eq_true ⟨hbnd.2.2.1, hbnd.2.2.2, hbnd.1, hbnd.2.1⟩, ?_⟩, ?_⟩
        · rw [hrev]; rfl
        · rw [hfl]; rfl

/-- The contract of a whole reveal loop (flood fill or chord), assuming
the contract of the nested `revealF` calls: the loop satisfies the
cascade contract with a loss iff some target is a hidden unflagged mine,
with reachability bounded by the targets, and it reveals every in-bounds
hidden unflagged non-mine target. -/
theorem fold_master (fuel : Nat) (hm : MasterStmt fuel)
    (step : GameState → Int × Int → GameState) (tgtR tgtC : Int × Int → Int) :
    ∀ (offs : List (Int × Int)),
    (∀ o ∈ offs, StepChar fuel step tgtR tgtC o) →
    ∀ (s0 : GameState), WF s0 → InvCords s0 → Consistent s0 → uc s0 < fuel →
    RevealOut s0 (offs.foldl step s0)
      (∃ o ∈ offs, TgtBomb s0 tgtR tgtC o)
      (fun r c => ∃ o ∈ offs, TgtReach s0 tgtR tgtC o r c) ∧
    (∀ o ∈ offs, TgtIn s0 tgtR tgtC o →
      (getCell s0 (tgtR o).toNat (tgtC o).toNat).flagged = false →
      (getCell s0 (tgtR o).toNat (tgtC o).toNat).bomb = false →
      (getCell (offs.foldl step s0) (tgtR o).toNat (tgtC o).toNat).revealed = true) := by
  intro offs
  induction offs with
  | nil =>
    intro _ s0 hwf hinv hcons hfu
    refine ⟨revealOut_refl s0 hinv ?_ _, ?_⟩
    · rintro ⟨o, ho, _⟩
      simp at ho
    · intro o ho
      simp at ho
  | cons o rest ih =>
    intro hstep s0 hwf hinv hcons hfu
    have hso := hstep o (List.mem_cons_self o rest) s0
    have hhead : RevealOut s0 (step s0 o) (TgtBomb s0 tgtR tgtC o)
        (fun r c => TgtReach s0 tgtR tgtC o r c) ∧
        (TgtIn s0 tgtR tgtC o →
         (getCell s0 (tgtR o).toNat (tgtC o).toNat).flagged = false →
         (getCell s0 (tgtR o).toNat (tgtC o).toNat).bomb = false →
         (getCell (step s0 o) (tgtR o).toNat (tgtC o).toNat).revealed = true) := by
      by_cases hbnd : TgtIn s0 tgtR tgtC o
      · obtain ⟨hrevcase, hunrev⟩ := hso.2 hbnd
        cases hrv : (getCell s0 (tgtR o).toNat (tgtC o).toNat).revealed with
        | true =>
          rw [hrevcase hrv]
          refine ⟨revealOut_refl s0 hinv ?_ _, ?_⟩
          · rintro ⟨_, _, _, h4⟩
            rw [hrv] at h4
            cases h4
          · intro _ _ _
            exact hrv
        | false =>
          rcases hunrev hrv with hcall | ⟨hid, hflag⟩
          · cases hfl : (getCell s0 (tgtR o).toNat (tgtC o).toNat).flagged with
            | true =>
              rw [hcall, revealF_flagged fuel s0 _ _ hrv hfl]
              refine ⟨revealOut_refl s0 hinv ?_ _, ?_⟩
              · rintro ⟨_, _, h3, _⟩
                rw [hfl] at h3
                cases h3
              · intro _ hf _
                simp at hf
            | false =>
              have htr : (tgtR o).toNat < s0.height := by
                obtain ⟨_, _, h3, h4⟩ := hbnd
                omega
              have htc : (tgtC o).toNat < s0.width := by
                obtain ⟨h1, h2, _, _⟩ := hbnd
                omega
              obtain ⟨hout, hself⟩ :=
                hm s0 (tgtR o).toNat (tgtC o).toNat hwf hinv hcons hfu htr htc hrv
              rw [hcall]
              refine ⟨revealOut_weaken hout ?_ ?_, ?_⟩
              · constructor
                · rintro ⟨h1, h2⟩
                  exact ⟨hbnd, h1, h2, hrv⟩
                · rintro ⟨_, h2, h3, _⟩
                  exact ⟨h2, h3⟩
              · intro r c hz
                exact ⟨hbnd, hfl, hz⟩
              · intro _ _ hb2
                exact hself hfl hb2
          · rw [hid]
            refine ⟨revealOut_refl s0 hinv ?_ _, ?_⟩
            · rintro ⟨_, _, h3, _⟩
              rw [hflag] at h3
              cases h3
            · intro _ hf _
              simp [hf] at hflag
      · rw [hso.1 hbnd]
        refine ⟨revealOut_refl s0 hinv ?_ _, ?_⟩
        · rintro ⟨h1, _⟩
          exact hbnd h1
        · intro hb2 _ _
          exact absurd hb2 hbnd
    obtain ⟨hout1, hD1⟩ := hhead
    have hwf1 : WF (step s0 o) := hout1.tame.st.WF hwf
    have hcons1 := consistent_transport hout1.tame.st hcons
    have hfu1 : uc (step s0 o) < fuel := Nat.lt_of_le_of_lt hout1.tame.uc_le hfu
    obtain ⟨hout2, hD2⟩ := ih (fun p hp => hstep p (List.mem_cons_of_mem o hp)) (step s0 o)
      hwf1 hout1.inv hcons1 hfu1
    rw [List.foldl_cons]
    constructor
    · refine { tame := hout2.tame.comp hout1.tame, inv := hout2.inv,
               pops := ?_, closed := ?_, sound := ?_ }
      · have hc0 := popsSpec_comp hout1.pops hout2.pops
          (fun i hi => hout2.tame.cords.subset hi)
          (fun i hi => hout1.tame.cords.subset hi)
          hout1.tame.st.te hout1.tame.st.diff
        refine popsSpec_congr hc0 ?_
        constructor
        · rintro (h | ⟨p, hp, hB⟩)
          · exact ⟨o, List.mem_cons_self o rest, h⟩
          · exact ⟨p, List.mem_cons_of_mem o hp,
              (tgtBomb_transport hout1.tame tgtR tgtC p).1 hB⟩
        · rintro ⟨p, hp, hB⟩
          rcases List.mem_cons.1 hp with rfl | hp2
          · exact Or.inl hB
          · exact Or.inr ⟨p, hp2, (tgtBomb_transport hout1.tame tgtR tgtC p).2 hB⟩
      · exact zeroClosed_step hout1.tame hout1.closed hout2.tame.mono hout2.closed
      · intro r c hrev
        rcases hout2.sound r c hrev with hrev1 | ⟨p, hp, hreach⟩
        · rcases hout1.sound r c hrev1 with h | h
          · exact Or.inl h
          · exact Or.inr ⟨o, List.mem_cons_self o rest, h⟩
        · exact Or.inr ⟨p, List.mem_cons_of_mem o hp,
            tgtReach_transport hout1.tame tgtR tgtC p r c hreach⟩
    · intro p hp hin hflag hbomb
      rcases List.mem_cons.1 hp with rfl | hp2
      · exact hout2.tame.mono _ _ (hD1 hin hflag hbomb)
      · refine hD2 p hp2 ((tgtIn_transport hout1.tame.st tgtR tgtC p).2 hin) ?_ ?_
        · rw [staticEq_flag hout1.tame.st]
          exact hflag
        · rw [staticEq_bomb hout1.tame.st]
          exact hbomb

/-! ### The per-branch contracts and the master induction -/

theorem adj_offset (row col : Nat) (o : Int × Int) (ho : o ∈ offsets9)
    (h1 : 0 ≤ (col : Int) + o.1) (h2 : 0 ≤ (row : Int) + o.2) :
    Adj (row, col) (((row : Int) + o.2).toNat, ((col : Int) + o.1).toNat) := by
  refine ⟨o, ho, ?_, ?_⟩
  · show ((((row : Int) + o.2).toNat : Nat) : Int) = ((row : Nat) : Int) + o.2
    omega
  · show ((((col : Int) + o.1).toNat : Nat) : Int) = ((col : Nat) : Int) + o.1
    omega

/-- The loss branch of `Cell.reveal` satisfies the cascade contract. -/
theorem revealOut_loss (s : GameState) (row col : Nat) (hinv : InvCords s)
    (hbb : (getCell s row col).bomb = true) (hrev : (getCell s row col).revealed = false)
    (hfg : (getCell s row col).flagged = false) :
    RevealOut s (lossUpdate s row col)
      ((getCell s row col).bomb = true ∧ (getCell s row col).flagged = false)
      (fun r c => ZReach s (row, col) (r, c)) := by
  refine { tame := tame_lossUpdate s row col, inv := hinv, pops := ?_,
           closed := ?_, sound := fun r c h => Or.inl h }
  · refine ⟨[false], rfl, ⟨fun h => by simp at h, fun h => absurd h.1 h.2⟩,
      iff_of_true (by simp) ⟨hbb, hfg⟩, fun h => by simp at h, fun _ => rfl,
      fun h => by simp at h, fun _ => rfl⟩
  · intro r c h1 h2
    refine absurd h1 ?_
    rw [show getCell (lossUpdate s row col) r c = getCell s r c from rfl]
    simp [h2]

/-- The positive-count reveal branch of `Cell.reveal` satisfies the
cascade contract. -/
theorem revealOut_mark (s : GameState) (row col : Nat) (hwf : WF s) (hinv : InvCords s)
    (hr : row < s.height) (hc : col < s.width)
    (hbb : (getCell s row col).bomb = false) (hfg : (getCell s row col).flagged = false)
    (hrev : (getCell s row col).revealed = false)
    (hz : (getCell s row col).neighbor_bombs ≠ 0) :
    RevealOut s (markRevealed s row col)
      ((getCell s row col).bomb = true ∧ (getCell s row col).flagged = false)
      (fun r c => ZReach s (row, col) (r, c)) := by
  refine { tame := tame_markRevealed s row col hbb hfg,
           inv := invCords_markRevealed s row col hwf hinv hr hc,
           pops := popsSpec_congr (popsSpec_markRevealed s row col hwf hinv hr hc hbb hrev)
             ⟨False.elim, fun h => by simp [hbb] at h⟩,
           closed := ?_, sound := ?_ }
  · intro r c h1 h2 _ _ _ hzq
    obtain ⟨e1, e2⟩ := markRevealed_new_only s row col r c h1 h2
    subst e1
    subst e2
    exact absurd hzq hz
  · intro r c h
    cases hrs : (getCell s r c).revealed with
    | true => exact Or.inl rfl
    | false =>
      obtain ⟨e1, e2⟩ := markRevealed_new_only s row col r c h hrs
      subst e1
      subst e2
      exact Or.inr ZReach.refl

/-- The induction establishing the cascade contract of `revealF` on a
hidden cell, at every fuel. -/
theorem master_all : ∀ fuel, MasterStmt fuel := by
  intro fuel
  induction fuel with
  | zero =>
    intro s row col _ _ _ hfu
    exact absurd hfu (Nat.not_lt_zero _)
  | succ n ih =>
    intro s row col hwf hinv hcons hfu hr hc hrev
    by_cases hfg : (getCell s row col).flagged = true
    · rw [revealF_flagged (n + 1) s row col hrev hfg]
      refine ⟨revealOut_refl s hinv (fun h => by simp [hfg] at h) _, ?_⟩
      intro hfq
      simp [hfq] at hfg
    · have hfg2 : (getCell s row col).flagged = false := by
        cases h : (getCell s row col).flagged
        · rfl
        · exact absurd h hfg
      by_cases hbb : (getCell s row col).bomb = true
      · rw [revealF_loss n s row col hbb hrev hfg2]
        refine ⟨revealOut_loss s row col hinv hbb hrev hfg2, ?_⟩
        intro _ hbq
        simp [hbq] at hbb
      · have hbb2 : (getCell s row col).bomb = false := by
          cases h : (getCell s row col).bomb
          · rfl
          · exact absurd h hbb
        by_cases hz : (getCell s row col).neighbor_bombs = 0
        · -- the flood-fill branch
          rw [revealF_flood_zero n s row col hbb2 hrev hfg2 hz]
          have hst1 := staticEq_markRevealed s row col
          have hwf1 : WF (markRevealed s row col) := hst1.WF hwf
          have hinv1 := invCords_markRevealed s row col hwf hinv hr hc
          have hcons1 := consistent_transport hst1 hcons
          have hfu1 : uc (markRevealed s row col) < n := by
            have := uc_markRevealed_lt s row col (by rw [hwf.1]; exact hr)
              (by rw [hwf.2 row hr]; exact hc) hrev
            omega
          obtain ⟨hfo, hfD⟩ := fold_master n ih (floodStep n row col)
            (fun p => (row : Int) + p.2) (fun p => (col : Int) + p.1) offsets9
            (floodStep_char n row col) (markRevealed s row col) hwf1 hinv1 hcons1 hfu1
          have hmark := tame_markRevealed s row col hbb2 hfg2
          have hnb := consistent_no_bomb_nbrs s row col hcons hr hc hbb2 hz
          constructor
          · refine { tame := hfo.tame.comp hmark, inv := hfo.inv,
                     pops := ?_, closed := ?_, sound := ?_ }
            · have hps := popsSpec_comp
                (popsSpec_markRevealed s row col hwf hinv hr hc hbb2 hrev)
                hfo.pops (fun i hi => hfo.tame.cords.subset hi)
                (fun i hi => hmark.cords.subset hi) hmark.st.te hmark.st.diff
              refine popsSpec_congr hps ?_
              constructor
              · rintro (h | ⟨o2, ho2, hTB⟩)
                · exact h.elim
                · exfalso
                  have hin := (tgtIn_transport hmark.st _ _ o2).1 hTB.1
                  have hbt := hTB.2.1
                  rw [staticEq_bomb hmark.st] at hbt
                  have hzero := hnb o2 ho2 hin.1 hin.2.1 hin.2.2.1 hin.2.2.2
                  rw [hzero] at hbt
                  cases hbt
              · rintro ⟨h1, _⟩
                rw [hbb2] at h1
                cases h1
            · intro r2 c2 hT hs hr2 hc2 hbq hzq
              cases hrv1 : (getCell (markRevealed s row col) r2 c2).revealed with
              | false =>
                intro o2 ho2 b1 b2 b3 b4 hfq
                refine hfo.closed r2 c2 hT hrv1 ?_ ?_ ?_ ?_ o2 ho2 b1 ?_ b3 ?_ ?_
                · rw [hst1.h]; exact hr2
                · rw [hst1.w]; exact hc2
                · rw [staticEq_bomb hst1]; exact hbq
                · rw [staticEq_nb hst1]; exact hzq
                · rw [hst1.w]; exact b2
                · rw [hst1.h]; exact b4
                · rw [staticEq_flag hst1]; exact hfq
              | true =>
                obtain ⟨e1, e2⟩ := markRevealed_new_only s row col r2 c2 hrv1 hs
                subst e1
                subst e2
                intro o2 ho2 b1 b2 b3 b4 hfq
                refine hfD o2 ho2 ?_ ?_ ?_
                · refine (tgtIn_transport hst1 _ _ o2).2 ⟨b1, ?_, b3, ?_⟩
                  · exact b2
                  · exact b4
                · rw [staticEq_flag hst1]
                  exact hfq
                · rw [staticEq_bomb hst1]
                  exact hnb o2 ho2 b1 b2 b3 b4
            · intro r2 c2 hT
              rcases hfo.sound r2 c2 hT with h1 | ⟨o2, ho2, hTR⟩
              · cases hrs : (getCell s r2 c2).revealed with
                | true => exact Or.inl rfl
                | false =>
                  obtain ⟨e1, e2⟩ := markRevealed_new_only s row col r2 c2 h1 hrs
                  subst e1
                  subst e2
                  exact Or.inr ZReach.refl
              · obtain ⟨hin1, hfl1, hzr1⟩ := hTR
                have hin := (tgtIn_transport hst1 _ _ o2).1 hin1
                have hfl2 : (getCell s ((row : Int) + o2.2).toNat
                    ((col : Int) + o2.1).toNat).flagged = false := by
                  rw [← staticEq_flag hst1]
                  exact hfl1
                have hzr : ZReach s (((row : Int) + o2.2).toNat,
                    ((col : Int) + o2.1).toNat) (r2, c2) := zreach_transport hst1 hzr1
                refine Or.inr (zreach_absorb ?_ hzr)
                refine ZReach.tail ZReach.refl ⟨hr, hc, hbb2, hfg2, hz⟩
                  (adj_offset row col o2 ho2 hin.1 hin.2.2.1) ?_ ?_ hfl2
                · show ((row : Int) + o2.2).toNat < s.height
                  have h5 : (row : Int) + o2.2 < (s.height : Int) := hin.2.2.2
                  omega
                · show ((col : Int) + o2.1).toNat < s.width
                  have h5 : (col : Int) + o2.1 < (s.width : Int) := hin.2.1
                  omega
          · intro _ _
            exact hfo.tame.mono row col (markRevealed_self s row col hwf hr hc)
        · rw [revealF_flood_pos n s row col hbb2 hrev hfg2 hz]
          refine ⟨revealOut_mark s row col hwf hinv hr hc hbb2 hfg2 hrev hz, ?_⟩
          intro _ _
          exact markRevealed_self s row col hwf hr hc

/-! ### Bridges between the invariant and the win condition -/

theorem getCell_oob_nw (s : GameState) (hwf : WF s) (r c : Nat)
    (h : ¬(r < s.height ∧ c < s.width)) : getCell s r c = newCell := by
  unfold getCell
  by_cases hr2 : r < s.height
  · have hc2 : ¬ c < s.width := fun hc3 => h ⟨hr2, hc3⟩
    have hlen := hwf.2 r hr2
    rw [List.getElem?_eq_none (by omega)]
    rfl
  · have hge : s.field.length ≤ r := by
      rw [hwf.1]
      omega
    rw [List.getElem?_eq_none hge]
    rfl

theorem invCords_allSafe {s : GameState} (hinv : InvCords s) :
    s.all_cords = [] ↔ allSafeRevealed s := by
  constructor
  · intro h r hr2 c hc2 hb
    cases hrv : (getCell s r c).revealed with
    | true => rfl
    | false =>
      have hm := lin_mem_all_cords s r c hinv hr2 hc2 hb hrv
      rw [h] at hm
      simp at hm
  · intro h
    refine List.eq_nil_iff_forall_not_mem.2 (fun i hi => ?_)
    have hlt := hinv.2.1 i hi
    have hw : 0 < s.width := by
      rcases Nat.eq_zero_or_pos s.width with h0 | h0
      · rw [h0, Nat.mul_zero] at hlt
        omega
      · exact h0
    have hrr : i / s.width < s.height := by
      rw [Nat.div_lt_iff_lt_mul hw]
      exact hlt
    have hcc : i % s.width < s.width := Nat.mod_lt _ hw
    have hchar := (hinv.2.2 i hlt).1 hi
    have hrv := h _ hrr _ hcc hchar.1
    rw [hrv] at hchar
    exact absurd hchar.2 (by simp)

/-- The cascade contract of `Cell.reveal` at its actual fuel. -/
theorem reveal_master (s : GameState) (row col : Nat)
    (hwf : WF s) (hinv : InvCords s) (hcons : Consistent s)
    (hr : row < s.height) (hc : col < s.width)
    (hrev : (getCell s row col).revealed = false) :
    RevealOut s (reveal s row col)
      ((getCell s row col).bomb = true ∧ (getCell s row col).flagged = false)
      (fun r c => ZReach s (row, col) (r, c)) ∧
    ((getCell s row col).flagged = false → (getCell s row col).bomb = false →
      (getCell (reveal s row col) row col).revealed = true) :=
  master_all (uc s + 2) s row col hwf hinv hcons (by omega) hr hc hrev

/-- Completeness of the flood fill: on a board with nothing revealed,
every cell of the reach set ends up revealed. -/
theorem zreach_complete (s T : GameState) (row col : Nat)
    (hself : (getCell T row col).revealed = true)
    (hclosed : ZeroClosed s T)
    (hall : ∀ r c, (getCell s r c).revealed = false) :
    ∀ q : Nat × Nat, ZReach s (row, col) q → (getCell T q.1 q.2).revealed = true := by
  intro q hq
  induction hq with
  | refl => exact hself
  | @tail p q2 hp hzc hadj hh hw2 hfq ih =>
    obtain ⟨o, ho, he1, he2⟩ := hadj
    have hq1 : ((p.1 : Int) + o.2).toNat = q2.1 := by omega
    have hq2 : ((p.2 : Int) + o.1).toNat = q2.2 := by omega
    have hrev2 := hclosed p.1 p.2 ih (hall p.1 p.2) hzc.1 hzc.2.1 hzc.2.2.1 hzc.2.2.2.2
      o ho (by omega) (by omega) (by omega) (by omega) (by rw [hq1, hq2]; exact hfq)
    rw [hq1, hq2] at hrev2
    exact hrev2

/-- Every reached cell is the start, or borders a zero-count cell of the
region. -/
theorem zreach_last {s : GameState} {start q : Nat × Nat} (h : ZReach s start q) :
    q = start ∨ ∃ p, ZReach s start p ∧ ZeroCell s p ∧ Adj p q := by
  cases h with
  | refl => exact Or.inl rfl
  | tail hp hzc hadj _ _ _ => exact Or.inr ⟨_, hp, hzc, hadj⟩

/-! ### Claims C2, C3, C4: outcome, flood region, chording -/

/-- Claim C2: on a consistent mid-game board, revealing a hidden cell
produces the win outcome (win popup, `check_best`, timer stop) exactly
when every non-mine cell ends up revealed, and the loss outcome (loss
popup, timer stop) exactly when the clicked cell is a hidden unflagged
mine; with no outcome, timer and record are untouched. -/
theorem C2_win_loss (s : GameState) (row col : Nat)
    (hwf : WF s) (hinv : InvCords s) (hcons : Consistent s)
    (hr : row < s.height) (hc : col < s.width)
    (hrev : (getCell s row col).revealed = false)
    (hne : s.all_cords ≠ []) :
    ∃ ext, (reveal s row col).popups = s.popups ++ ext ∧
      ((true ∈ ext) ↔ allSafeRevealed (reveal s row col)) ∧
      ((false ∈ ext) ↔ ((getCell s row col).bomb = true ∧
        (getCell s row col).flagged = false)) ∧
      (ext = [] → (reveal s row col).running = s.running ∧
        (reveal s row col).best_time = s.best_time) ∧
      (ext ≠ [] → (reveal s row col).running = false) ∧
      ((true ∈ ext) → (reveal s row col).best_time =
        if s.current_diff ≠ "custom" ∧ s.time_elapsed < s.best_time
        then s.time_elapsed else s.best_time) := by
  obtain ⟨out, _⟩ := reveal_master s row col hwf hinv hcons hr hc hrev
  obtain ⟨ext, p1, tw, fl, em, ne2, bw, _⟩ := out.pops
  refine ⟨ext, p1, ?_, fl, em, ne2, ?_⟩
  · refine tw.trans ?_
    constructor
    · intro h
      exact (invCords_allSafe out.inv).1 h.1
    · intro h
      exact ⟨(invCords_allSafe out.inv).2 h, hne⟩
  · intro h
    rw [bw h, bestAfter_eq]

theorem C2_witness :
    (WF exC9 ∧ InvCords exC9 ∧ Consistent exC9 ∧
     (getCell exC9 0 1).revealed = false ∧ exC9.all_cords ≠ []) ∧
    (∃ ext, (reveal exC9 0 1).popups = exC9.popups ++ ext ∧
      ((true ∈ ext) ↔ allSafeRevealed (reveal exC9 0 1)) ∧
      ((false ∈ ext) ↔ ((getCell exC9 0 1).bomb = true ∧
        (getCell exC9 0 1).flagged = false)) ∧
      (ext = [] → (reveal exC9 0 1).running = exC9.running ∧
        (reveal exC9 0 1).best_time = exC9.best_time) ∧
      (ext ≠ [] → (reveal exC9 0 1).running = false) ∧
      ((true ∈ ext) → (reveal exC9 0 1).best_time =
        if exC9.current_diff ≠ "custom" ∧ exC9.time_elapsed < exC9.best_time
        then exC9.time_elapsed else exC9.best_time)) :=
  ⟨⟨by decide, by decide, by decide, by decide, by decide⟩,
    C2_win_loss exC9 0 1 (by decide) (by decide) (by decide) (by decide) (by decide)
      (by decide) (by decide)⟩

/-- Claim C3: on a consistent board with nothing yet revealed, revealing
an unflagged zero-count non-mine cell reveals exactly the cells reachable
through its connected zero-count region (the region together with its
unflagged border), never reveals a flagged cell, and every revealed cell
other than the start borders a zero-count cell of the region. -/
theorem C3_flood_region (s : GameState) (row col : Nat)
    (hwf : WF s) (hinv : InvCords s) (hcons : Consistent s)
    (hr : row < s.height) (hc : col < s.width)
    (hall : ∀ r, r < s.height → ∀ c2, c2 < s.width → (getCell s r c2).revealed = false)
    (hfg : (getCell s row col).flagged = false)
    (hbb : (getCell s row col).bomb = false)
    (hz : (getCell s row col).neighbor_bombs = 0) :
    (∀ r c2, (getCell (reveal s row col) r c2).revealed = true ↔
      ZReach s (row, col) (r, c2)) ∧
    (∀ r c2, (getCell s r c2).flagged = true →
      (getCell (reveal s row col) r c2).revealed = false) ∧
    (∀ r c2, ZReach s (row, col) (r, c2) → (r, c2) = (row, col) ∨
      ∃ p, ZReach s (row, col) p ∧ ZeroCell s p ∧ Adj p (r, c2)) := by
  have hall2 : ∀ r c2, (getCell s r c2).revealed = false := by
    intro r c2
    by_cases hin : r < s.height ∧ c2 < s.width
    · exact hall r hin.1 c2 hin.2
    · rw [getCell_oob_nw s hwf r c2 hin]
      rfl
  obtain ⟨out, hself⟩ := reveal_master s row col hwf hinv hcons hr hc (hall2 row col)
  refine ⟨?_, ?_, fun r c2 h => zreach_last h⟩
  · intro r c2
    constructor
    · intro h
      rcases out.sound r c2 h with h1 | h1
      · simp [hall2 r c2] at h1
      · exact h1
    · intro h
      exact zreach_complete s (reveal s row col) row col (hself hfg hbb)
        out.closed hall2 (r, c2) h
  · intro r c2 hflag
    cases hrvT : (getCell (reveal s row col) r c2).revealed with
    | false => rfl
    | true =>
      have hfr := (out.tame.fresh r c2 hrvT (hall2 r c2)).2.1
      simp [hfr] at hflag

theorem C3_witness :
    (WF exC3 ∧ InvCords exC3 ∧ Consistent exC3 ∧
     (∀ r, r < exC3.height → ∀ c2, c2 < exC3.width →
       (getCell exC3 r c2).revealed = false) ∧
     (getCell exC3 0 0).flagged = false ∧ (getCell exC3 0 0).bomb = false ∧
     (getCell exC3 0 0).neighbor_bombs = 0) ∧
    (∀ r c2, (getCell (reveal exC3 0 0) r c2).revealed = true ↔
      ZReach exC3 (0, 0) (r, c2)) ∧
    (∀ r c2, (getCell exC3 r c2).flagged = true →
      (getCell (reveal exC3 0 0) r c2).revealed = false) ∧
    (∀ r c2, ZReach exC3 (0, 0) (r, c2) → (r, c2) = (0, 0) ∨
      ∃ p, ZReach exC3 (0, 0) p ∧ ZeroCell exC3 p ∧ Adj p (r, c2)) :=
  ⟨⟨by decide, by decide, by decide, by decide, by decide, by decide, by decide⟩,
    C3_flood_region exC3 0 0 (by decide) (by decide) (by decide) (by decide) (by decide)
      (by decide) (by decide) (by decide) (by decide)⟩

/-- Claim C4: chording an already-revealed cell with a mismatched
flagged-neighbor count changes nothing; with a matching count it reveals
every hidden unflagged in-bounds non-mine neighbor, and a loss popup
appears exactly when some in-bounds neighbor is a hidden unflagged mine
(chording does not special-case safety). -/
theorem C4_chord (s : GameState) (row col : Nat)
    (hwf : WF s) (hinv : InvCords s) (hcons : Consistent s)
    (hrev : (getCell s row col).revealed = true) :
    (flaggedCount s row col ≠ (getCell s row col).neighbor_bombs →
      try_chord s row col = s) ∧
    (flaggedCount s row col = (getCell s row col).neighbor_bombs →
      (∀ o ∈ offsets9,
        TgtIn s (fun p => (row : Int) + p.1) (fun p => (col : Int) + p.2) o →
        (getCell s ((row : Int) + o.1).toNat ((col : Int) + o.2).toNat).flagged = false →
        (getCell s ((row : Int) + o.1).toNat ((col : Int) + o.2).toNat).bomb = false →
        (getCell (try_chord s row col) ((row : Int) + o.1).toNat
          ((col : Int) + o.2).toNat).revealed = true) ∧
      ∃ ext, (try_chord s row col).popups = s.popups ++ ext ∧
        ((false ∈ ext) ↔ ∃ o ∈ offsets9,
          TgtBomb s (fun p => (row : Int) + p.1) (fun p => (col : Int) + p.2) o) ∧
        (ext ≠ [] → (try_chord s row col).running = false)) := by
  constructor
  · intro hmm2
    exact try_chordF_mismatch (uc s + 1) s row col hmm2
  · intro hmatch
    obtain ⟨out, hD⟩ := fold_master (uc s + 1) (master_all (uc s + 1))
      (chordStep (uc s + 1) row col)
      (fun p => (row : Int) + p.1) (fun p => (col : Int) + p.2) offsets9
      (chordStep_char (uc s + 1) row col) s hwf hinv hcons (by omega)
    have heq : try_chord s row col =
        offsets9.foldl (chordStep (uc s + 1) row col) s :=
      try_chordF_match (uc s + 1) s row col hrev hmatch
    refine ⟨?_, ?_⟩
    · intro o ho hin hfl hbb
      rw [heq]
      exact hD o ho hin hfl hbb
    · obtain ⟨ext, p1, _, fl, _, ne2, _, _⟩ := out.pops
      refine ⟨ext, ?_, fl, ?_⟩
      · rw [heq]
        exact p1
      · intro h
        rw [heq]
        exact ne2 h

theorem C4_witness :
    (WF exC7 ∧ InvCords exC7 ∧ Consistent exC7 ∧ (getCell exC7 0 0).revealed = true ∧
     flaggedCount exC7 0 0 = (getCell exC7 0 0).neighbor_bombs) ∧
    (flaggedCount exC7 0 0 ≠ (getCell exC7 0 0).neighbor_bombs →
      try_chord exC7 0 0 = exC7) ∧
    (flaggedCount exC7 0 0 = (getCell exC7 0 0).neighbor_bombs →
      (∀ o ∈ offsets9,
        TgtIn exC7 (fun p => ((0 : Nat) : Int) + p.1) (fun p => ((0 : Nat) : Int) + p.2) o →
        (getCell exC7 (((0 : Nat) : Int) + o.1).toNat
          (((0 : Nat) : Int) + o.2).toNat).flagged = false →
        (getCell exC7 (((0 : Nat) : Int) + o.1).toNat
          (((0 : Nat) : Int) + o.2).toNat).bomb = false →
        (getCell (try_chord exC7 0 0) (((0 : Nat) : Int) + o.1).toNat
          (((0 : Nat) : Int) + o.2).toNat).revealed = true) ∧
      ∃ ext, (try_chord exC7 0 0).popups = exC7.popups ++ ext ∧
        ((false ∈ ext) ↔ ∃ o ∈ offsets9,
          TgtBomb exC7 (fun p => ((0 : Nat) : Int) + p.1)
            (fun p => ((0 : Nat) : Int) + p.2) o) ∧
        (ext ≠ [] → (try_chord exC7 0 0).running = false)) :=
  ⟨⟨by decide, by decide, by decide, by decide, by decide⟩,
    (C4_chord exC7 0 0 (by decide) (by decide) (by decide) (by decide)).1,
    (C4_chord exC7 0 0 (by decide) (by decide) (by decide) (by decide)).2⟩
